import Mathlib

/-!
Verification of the toy-parser pipeline (lexer, parser, interpreter).

The definitions below are a shallow embedding of the TypeScript sources:
the hand-written character-switch lexer (src/lexer.ts), the table/rule
driven lexer (src/lexer-table.ts with the rule set of
src/lexer-table-rules.ts), the precedence-climbing parser (src/parser.ts)
and the tree-walking interpreter (src/interpreter.ts).  Both lexers and
the parser keep a cursor into their input and only ever look at the part
of the input at or after the cursor, so they are embedded as functions on
the remaining suffix of the input.  The `ErrorMessage.error` helper of
the sources has its `throw` commented out: it prints the message and
returns, so every embedded component threads an explicit error log and
continues exactly where the source continues; places where the source
would loop without advancing are marked explicitly.
-/

namespace ToyParser

/-- A dynamic JavaScript value as the pipeline uses it: a string, a number,
or `undefined`.  JavaScript numbers are IEEE doubles; they are embedded as
exact rationals, which agrees with the source on all integer arithmetic
(the only arithmetic any statement below performs) but has no infinities:
`x / 0` is `0` here where JavaScript yields `Infinity`/`NaN`. -/
inductive JsVal where
  | str (s : String)
  | num (q : ℚ)
  | undefined
deriving DecidableEq, Repr

/-- JavaScript truthiness of an embedded value: `0`, the empty string and
`undefined` are falsy (`NaN` is falsy in JavaScript; it has no rational
counterpart, see `JsVal`). -/
def JsVal.truthy : JsVal → Bool
  | .str s => s ≠ ""
  | .num q => q ≠ 0
  | .undefined => false

/-- Display of a value inside a template literal or `Array.join`, as
JavaScript's `String()` coercion does it.  Integral numbers print without
a fractional part exactly as in JavaScript; non-integral ones print as a
fraction `a/b` where JavaScript would print a decimal expansion (no
statement below prints a non-integral number). -/
def jsToDisplay : JsVal → String
  | .str s => s
  | .num q => if q.den = 1 then toString q.num else toString q
  | .undefined => "undefined"

/-- The token kinds of `TokenType` (src/types.d.ts), together with the
three members the most recent rule table uses: `UNSUPPORTED` (produced for
`@identifier`), and the rule-only labels `WHITESPACE` and `COMMENT`
(their rules set `skipToken`, so no token of these kinds is ever
emitted).  The enum of the checked-in types.d.ts predates these three
members; they appear in src/lexer.ts, src/lexer-table-rules.ts and the
parser, and the spec lists all of them. -/
inductive TokenType where
  | VARIABLE
  | EQUAL
  | STRING
  | PRINT
  | INTEGER
  | PLUS
  | MINUS
  | COMMA
  | MULTIPLY
  | DIVISION
  | EOL
  | UNSUPPORTED
  | WHITESPACE
  | COMMENT
deriving DecidableEq, Repr

/-- A token: `{ type, value }` where the value is the matched text, the
decoded payload, or (through the JavaScript slips modelled faithfully
below) `undefined`. -/
structure Token where
  type : TokenType
  value : JsVal
deriving DecidableEq, Repr

/-- The character class of the hand-written lexer's `readIdentifier`
(regex `[a-zA-Z_]`). -/
def isAlphaUnd (c : Char) : Bool :=
  ('a' ≤ c && c ≤ 'z') || ('A' ≤ c && c ≤ 'Z') || c = '_'

/-- The character class of the JavaScript regex `\w`: ASCII letters,
digits and underscore. -/
def isWordChar (c : Char) : Bool :=
  ('a' ≤ c && c ≤ 'z') || ('A' ≤ c && c ≤ 'Z') || ('0' ≤ c && c ≤ '9') || c = '_'

/-- The character class of the JavaScript regex `\s` (the rule table's
whitespace rule): ASCII whitespace plus the Unicode space separators,
NEL-adjacent spaces and the BOM. -/
def jsWhitespace (c : Char) : Bool :=
  c = ' ' || c = '\t' || c = '\n' || c = '\r' || c = '\x0b' || c = '\x0c' ||
  c = '\u00A0' || c = '\u1680' || ('\u2000' ≤ c && c ≤ '\u200A') ||
  c = '\u2028' || c = '\u2029' || c = '\u202F' || c = '\u205F' || c = '\u3000' ||
  c = '\uFEFF'

/-- A JavaScript line terminator: the characters the regex `.` does not
match (relevant to the comment rule `%.*` and to `\\.` in the string
rule). -/
def isLineTerm (c : Char) : Bool :=
  c = '\n' || c = '\r' || c = '\u2028' || c = '\u2029'

/-- `parseInt(s, 10)` on a run of ASCII digits. -/
def digitsToNat (ds : List Char) : Nat :=
  ds.foldl (fun a c => 10 * a + (c.toNat - 48)) 0

/-- The list dropped by `dropWhile` never grows (used for termination of
both lexers). -/
theorem length_dropWhile_le (p : Char → Bool) (l : List Char) :
    (l.dropWhile p).length ≤ l.length := by
  induction l with
  | nil => simp [List.dropWhile]
  | cons a l ih => by_cases h : p a <;> simp [List.dropWhile, h] <;> omega

/-! ## The hand-written lexer (class `Lexer` of src/lexer.ts)

`Lexer.error` only logs (the `throw` of `ErrorMessage.error` is commented
out), so the switch statement falls through after an error and the scan
continues with the next character; the log is returned alongside the
tokens.  The source's messages carry the zero-based character index; the
embedding, which works on the remaining suffix, keeps the message text
without the index (no statement below inspects it). -/

/-- The `Lexer.error` text for an unexpected character (without the
trailing index, see above). -/
def unexpectedSym (c : Char) : String :=
  "Lexer: unexpected symbol '" ++ String.singleton c ++ "'"

/-- `Lexer.readString`, entered after the opening quote, fused with the
caller's final `position++` that steps over the closing quote: returns the
decoded contents and the suffix after the string.  A backslash skips
itself and copies the next character verbatim; reaching the end of the
input without a closing quote simply ends the string (no error), and a
trailing lone backslash appends the text `undefined`
(`string += this.input[this.position++]` reads past the end). -/
def readStringHand : List Char → String × List Char
  | [] => ("", [])
  | c :: r =>
    if c = '"' then ("", r)
    else if c = '\\' then
      match r with
      | [] => ("undefined", [])
      | x :: r2 =>
        let p := readStringHand r2
        (String.singleton x ++ p.1, p.2)
    else
      let p := readStringHand r
      (String.singleton c ++ p.1, p.2)

/-- `readStringHand` only consumes input (used for termination). -/
theorem readStringHand_length (l : List Char) : (readStringHand l).2.length ≤ l.length := by
  induction l using readStringHand.induct
  all_goals rw [readStringHand.eq_def]
  all_goals simp_all
  all_goals try omega

/-- The scanning loop of `Lexer.lex` (src/lexer.ts), acting on the suffix
of the input at the current position; returns the token list and the error
log.  `readIdentifier` is inlined at its two call sites (`@` and `$`): it
logs an error when the next character is not in `[a-zA-Z_]` (or the input
is exhausted) but still builds the identifier starting from that very
character, extending it with `[a-zA-Z_]` characters; at the end of the
input the identifier is JavaScript's `undefined`. -/
def lexHandGo (l : List Char) : List Token × List String :=
  match l with
  | [] => ([], [])
  | c :: r =>
    if c = ' ' || c = '\t' then
      -- ignore whitespace
      lexHandGo r
    else if c = '%' then
      -- comment: skip everything up to the next newline, then `position++`
      -- also steps over that newline
      lexHandGo ((r.dropWhile (fun x => !(x = '\n'))).drop 1)
    else if c = '@' then
      match r with
      | [] =>
        -- readIdentifier errors at end of input and returns `undefined`;
        -- `char + undefined` coerces to the string "@undefined"
        ([⟨.UNSUPPORTED, .str "@undefined"⟩], ["Lexer: expected identifier"])
      | d :: r2 =>
        let p := lexHandGo (r2.dropWhile isAlphaUnd)
        (⟨.UNSUPPORTED, .str ("@" ++ String.mk (d :: r2.takeWhile isAlphaUnd))⟩ :: p.1,
          (if isAlphaUnd d then [] else ["Lexer: expected identifier"]) ++ p.2)
    else if c = '=' then
      let p := lexHandGo r
      (⟨.EQUAL, .str "="⟩ :: p.1, p.2)
    else if c = '+' then
      let p := lexHandGo r
      (⟨.PLUS, .str "+"⟩ :: p.1, p.2)
    else if c = '-' then
      let p := lexHandGo r
      (⟨.MINUS, .str "-"⟩ :: p.1, p.2)
    else if c = '*' then
      let p := lexHandGo r
      (⟨.MULTIPLY, .str "*"⟩ :: p.1, p.2)
    else if c = '/' then
      let p := lexHandGo r
      (⟨.DIVISION, .str "/"⟩ :: p.1, p.2)
    else if c = ',' then
      let p := lexHandGo r
      (⟨.COMMA, .str ","⟩ :: p.1, p.2)
    else if c = ';' || c = '\n' then
      let p := lexHandGo r
      (⟨.EOL, .str (String.singleton c)⟩ :: p.1, p.2)
    else if c = 'P' then
      if (c :: r).take 5 = "PRINT".toList then
        let p := lexHandGo (r.drop 4)
        (⟨.PRINT, .str "PRINT"⟩ :: p.1, p.2)
      else
        let p := lexHandGo r
        (p.1, unexpectedSym c :: p.2)
    else if c = '$' then
      match r with
      | [] =>
        -- readIdentifier errors and yields `undefined`, which is pushed as
        -- the token's value unchanged
        ([⟨.VARIABLE, .undefined⟩], ["Lexer: expected identifier"])
      | d :: r2 =>
        let p := lexHandGo (r2.dropWhile isAlphaUnd)
        (⟨.VARIABLE, .str (String.mk (d :: r2.takeWhile isAlphaUnd))⟩ :: p.1,
          (if isAlphaUnd d then [] else ["Lexer: expected identifier"]) ++ p.2)
    else if c = '"' then
      let s := readStringHand r
      let p := lexHandGo s.2
      (⟨.STRING, .str s.1⟩ :: p.1, p.2)
    else if c.isDigit then
      let p := lexHandGo (r.dropWhile Char.isDigit)
      (⟨.INTEGER, .num (digitsToNat (c :: r.takeWhile Char.isDigit))⟩ :: p.1, p.2)
    else
      let p := lexHandGo r
      (p.1, unexpectedSym c :: p.2)
termination_by l.length
decreasing_by
  all_goals
    (try have h1 := length_dropWhile_le (fun x => !(x = '\n')) r)
    (try have h1b := length_dropWhile_le (fun x => !(x = '\n')) r2)
    (try have h2 := readStringHand_length r)
    (try have h2b := readStringHand_length r2)
    (try have h3 := length_dropWhile_le isAlphaUnd r2)
    (try have h3b := length_dropWhile_le isAlphaUnd r)
    (try have h4 := length_dropWhile_le Char.isDigit r)
    (try have h4b := length_dropWhile_le Char.isDigit r2)
    simp only [List.length_cons, List.length_drop] at *
    omega

/-- The hand-written lexer on a whole input string
(`new Lexer(input).lex()`). -/
def lexHand (input : String) : List Token × List String :=
  lexHandGo input.toList

/-! ## The table/rule-driven lexer

Class `Lexer` of src/lexer-table.ts, instantiated with the rule table
`lexerRules` of src/lexer-table-rules.ts.  Each rule's anchored regular
expression is embedded as a `matcher` on the remaining input that returns
the length of `match[0]` and the token value (`match[1]` when the rule
sets `innerMatch`, otherwise `match[0]`); the driver then applies the
rule's optional `action` to the value. -/

/-- A rule of the `LexerTable` (src/lexer-table.ts): pattern plus
`innerMatch` are fused into `matcher`, the remaining fields are as in the
source. -/
structure LexerRule where
  matcher : List Char → Option (Nat × JsVal)
  tokenType : TokenType
  skipToken : Bool
  skipNextSymbol : Bool
  action : Option (JsVal → JsVal)

/-- The rule pattern `/^[\n;]/` (EOL). -/
def matchEol : List Char → Option (Nat × JsVal)
  | c :: _ => if c = '\n' || c = ';' then some (1, .str (String.singleton c)) else none
  | [] => none

/-- The rule pattern `/^\s+/` (whitespace, skipped). -/
def matchWs (l : List Char) : Option (Nat × JsVal) :=
  let run := l.takeWhile jsWhitespace
  if run.isEmpty then none else some (run.length, .str (String.mk run))

/-- The rule pattern `/^%.*/` (comment, skipped; `.` stops at a line
terminator). -/
def matchComment : List Char → Option (Nat × JsVal)
  | [] => none
  | c :: r =>
    if c = '%' then
      let run := r.takeWhile (fun x => !isLineTerm x)
      some (1 + run.length, .str (String.mk (c :: run)))
    else none

/-- The rule pattern `/^@\w+/` (UNSUPPORTED; the value is the whole
match including the `@`). -/
def matchUnsupported : List Char → Option (Nat × JsVal)
  | [] => none
  | c :: r =>
    if c = '@' then
      let run := r.takeWhile isWordChar
      if run.isEmpty then none else some (1 + run.length, .str (String.mk (c :: run)))
    else none

/-- A single-character rule pattern such as `/^=/` or `/^\+/`. -/
def matchSingle (ch : Char) : List Char → Option (Nat × JsVal)
  | c :: _ => if c = ch then some (1, .str (String.singleton ch)) else none
  | [] => none

/-- The rule pattern `/^\$(\w+)/` (VARIABLE, `innerMatch`: the value drops
the `$`). -/
def matchVariable : List Char → Option (Nat × JsVal)
  | [] => none
  | c :: r =>
    if c = '$' then
      let run := r.takeWhile isWordChar
      if run.isEmpty then none else some (1 + run.length, .str (String.mk run))
    else none

/-- The body of the string pattern `/^"((?:[^"\\]|\\.)*)"/` after the
opening quote: returns the inner group's characters and the number of
characters matched after the opening quote (including the closing quote).
A unit is either a character other than `"` and `\`, or a backslash
followed by a character the regex `.` matches (not a line terminator);
the first unescaped `"` closes the string. -/
def strScan : List Char → Option (List Char × Nat)
  | [] => none
  | c :: r =>
    if c = '"' then some ([], 1)
    else if c = '\\' then
      match r with
      | [] => none
      | x :: r2 =>
        if isLineTerm x then none
        else (strScan r2).map (fun p => (c :: x :: p.1, p.2 + 2))
    else (strScan r).map (fun p => (c :: p.1, p.2 + 1))

/-- The string rule's pattern (`innerMatch`: the value is the group
between the quotes, before the rule's `action` runs). -/
def matchStr : List Char → Option (Nat × JsVal)
  | [] => none
  | c :: r =>
    if c = '"' then (strScan r).map (fun p => (1 + p.2, .str (String.mk p.1)))
    else none

/-- The string rule's `action`, `string.replace(/\\(["\\])/g, "$1")`: a
backslash before `"` or `\` is removed; any other backslash stays. -/
def unescapeJs : List Char → List Char
  | [] => []
  | c :: r =>
    if c = '\\' then
      match r with
      | [] => [c]
      | x :: r2 =>
        if x = '"' || x = '\\' then x :: unescapeJs r2
        else c :: unescapeJs (x :: r2)
    else c :: unescapeJs r

/-- The rule pattern `/^\d+/` (INTEGER; the `action` applies
`parseInt`). -/
def matchInt (l : List Char) : Option (Nat × JsVal) :=
  let run := l.takeWhile Char.isDigit
  if run.isEmpty then none else some (run.length, .str (String.mk run))

/-- The rule pattern `/^PRINT/`. -/
def matchPrintKw (l : List Char) : Option (Nat × JsVal) :=
  if l.take 5 = "PRINT".toList then some (5, .str "PRINT") else none

/-- The rule table of src/lexer-table-rules.ts, in source order. -/
def lexerRules : List LexerRule := [
  { matcher := matchEol, tokenType := .EOL,
    skipToken := false, skipNextSymbol := false, action := none },
  { matcher := matchWs, tokenType := .WHITESPACE,
    skipToken := true, skipNextSymbol := false, action := none },
  { matcher := matchComment, tokenType := .COMMENT,
    skipToken := true, skipNextSymbol := true, action := none },
  { matcher := matchUnsupported, tokenType := .UNSUPPORTED,
    skipToken := false, skipNextSymbol := false, action := none },
  { matcher := matchSingle '=', tokenType := .EQUAL,
    skipToken := false, skipNextSymbol := false, action := none },
  { matcher := matchSingle ',', tokenType := .COMMA,
    skipToken := false, skipNextSymbol := false, action := none },
  { matcher := matchSingle '+', tokenType := .PLUS,
    skipToken := false, skipNextSymbol := false, action := none },
  { matcher := matchSingle '-', tokenType := .MINUS,
    skipToken := false, skipNextSymbol := false, action := none },
  { matcher := matchSingle '*', tokenType := .MULTIPLY,
    skipToken := false, skipNextSymbol := false, action := none },
  { matcher := matchSingle '/', tokenType := .DIVISION,
    skipToken := false, skipNextSymbol := false, action := none },
  { matcher := matchVariable, tokenType := .VARIABLE,
    skipToken := false, skipNextSymbol := false, action := none },
  { matcher := matchStr, tokenType := .STRING,
    skipToken := false, skipNextSymbol := false,
    action := some (fun v => match v with
      | .str s => .str (String.mk (unescapeJs s.toList))
      | v => v) },
  { matcher := matchInt, tokenType := .INTEGER,
    skipToken := false, skipNextSymbol := false,
    action := some (fun v => match v with
      | .str s => .num (digitsToNat s.toList)
      | v => v) },
  { matcher := matchPrintKw, tokenType := .PRINT,
    skipToken := false, skipNextSymbol := false, action := none }]

/-- The rule loop of `Lexer.lex` (src/lexer-table.ts): the first rule
whose pattern matches the remaining input wins. -/
def findMatch : List LexerRule → List Char → Option (LexerRule × Nat × JsVal)
  | [], _ => none
  | rule :: rs, l =>
    match rule.matcher l with
    | some p => some (rule, p.1, p.2)
    | none => findMatch rs l

/-- A matcher that consumes at least one character whenever it matches. -/
def RulePos (m : List Char → Option (Nat × JsVal)) : Prop :=
  ∀ l p, m l = some p → 1 ≤ p.1

/-- `findMatch` over positive matchers yields a positive length. -/
theorem findMatch_pos (rs : List LexerRule) (hp : ∀ r ∈ rs, RulePos r.matcher)
    (l : List Char) (rule : LexerRule) (n : Nat) (v : JsVal)
    (h : findMatch rs l = some (rule, n, v)) : 1 ≤ n := by
  induction rs with
  | nil => simp [findMatch] at h
  | cons r rs ih =>
    simp only [findMatch] at h
    split at h
    · rename_i p heq
      have h2 : p.1 = n := by simpa using congrArg (fun o => (Option.map (fun q => q.2.1) o).getD 0) h
      exact h2 ▸ hp r (by simp) l p heq
    · exact ih (fun r hr => hp r (List.mem_cons_of_mem _ hr)) h

/-- Every pattern of the rule table requires at least one character. -/
theorem lexerRules_pos : ∀ r ∈ lexerRules, RulePos r.matcher := by
  intro r hr
  simp only [lexerRules, List.mem_cons, List.not_mem_nil, or_false] at hr
  rcases hr with rfl | rfl | rfl | rfl | rfl | rfl | rfl | rfl | rfl | rfl | rfl | rfl | rfl | rfl
  all_goals intro l p h
  all_goals simp only [matchEol, matchWs, matchComment, matchUnsupported, matchSingle,
    matchVariable, matchStr, matchInt, matchPrintKw] at h
  all_goals repeat' split at h
  all_goals
    try (rw [Option.map_eq_some'] at h
         obtain ⟨q, hq, rfl⟩ := h
         simp only
         omega)
  all_goals cases h
  all_goals simp
  all_goals try omega
  all_goals rename_i hne
  all_goals simp only [List.isEmpty_iff] at hne
  all_goals exact List.length_pos.mpr hne

/-- The scanning loop of `Lexer.lex` (src/lexer-table.ts) on the
remaining input.  When no rule matches, the source calls `error`, which
only logs (the `throw` is commented out), and the loop re-runs on the
same position: the source never terminates there; `none` marks that
stuck state.  On a match the driver applies the rule's `action`, skips
the match (plus one more character when the rule sets `skipNextSymbol`),
and pushes the token unless the rule sets `skipToken`. -/
def lexTableGo (l : List Char) : Option (List Token) :=
  match l with
  | [] => some []
  | c :: r =>
    match h : findMatch lexerRules (c :: r) with
    | none => none
    | some (rule, n, v) =>
      let v2 := match rule.action with
        | some f => f v
        | none => v
      let toks := lexTableGo ((c :: r).drop (n + (if rule.skipNextSymbol then 1 else 0)))
      if rule.skipToken then toks
      else toks.map (fun ts => ⟨rule.tokenType, v2⟩ :: ts)
termination_by l.length
decreasing_by
  have := findMatch_pos lexerRules lexerRules_pos _ _ _ _ h
  simp only [List.length_drop, List.length_cons]
  omega

/-- The table-driven lexer on a whole input string
(`new Lexer(input, lexerRules).lex()`); `none` when the source loop
gets stuck (see `lexTableGo`). -/
def lexTable (input : String) : Option (List Token) :=
  lexTableGo input.toList

/-! ## The parser (class `Parser` of src/parser.ts)

The parser walks the token array with an index (`currentIndex`),
embedded here as functions on the remaining token suffix that report how
many tokens they consumed.  `Parser.error` only logs (the `throw` of
`ErrorMessage.error` is commented out) and the source then continues, so
the expression parsers return an optional expression (`undefined` on an
error, as in the source) together with an error log.  Two genuinely
aborting or non-terminating behaviours of the source are surfaced in
`ParseResult`: `consume()` past the end of the array returns `undefined`
and reading `.type` of it throws a `TypeError` (`crash`); an unexpected
token at statement level is reported by `error` and then re-inspected by
the unchanged loop forever (`diverge`). -/

/-- An expression node (`VariableReference`, `Literal`,
`BinaryExpression` of src/types.d.ts).  `varname` comes from
`token.value as string` and `operator` from `consume().value as
Operation`: TypeScript casts that perform no runtime check, so both stay
`JsVal`. -/
inductive Expr where
  | varRef (varname : JsVal)
  | lit (value : JsVal)
  | binary (left : Expr) (op : JsVal) (right : Expr)
deriving DecidableEq, Repr

/-- A statement node: `AssignmentStatement`, `PrintStatement`, and the
`NodeType.Unsupported` node the parser builds for an UNSUPPORTED
token. -/
inductive Stmt where
  | assignment (varname : JsVal) (value : Expr)
  | printStmt (expressions : List Expr)
  | unsupported (value : JsVal)
deriving DecidableEq, Repr

/-- The string value of a node's `NodeType` tag, as it appears inside a
template literal.  `"Assignemnt"` (sic) and `"Print"` are the enum
strings of src/types.d.ts.  Modelled from the spec: the checked-in
types.d.ts predates the `Unsupported` member that the parser uses (the
spec's `UnsupportedStatement` variant), so its enum string here follows
the naming pattern of the other members; no statement below depends on
the exact string beyond it being a fixed tag rather than the directive
text. -/
def Stmt.typeTag : Stmt → String
  | .assignment _ _ => "Assignemnt"
  | .printStmt _ => "Print"
  | .unsupported _ => "Unsupported"

/-- `Parser.getOperatorPrecedence`. -/
def getOperatorPrecedence : TokenType → Nat
  | .PLUS => 1
  | .MINUS => 1
  | .MULTIPLY => 2
  | .DIVISION => 2
  | _ => 0

/-- `Parser.parseAtom`: consumes exactly one token.  On a token that
starts no expression it logs `unexpected token …` and returns
`undefined` (the embedding keeps the message without the interpolated
token value; no statement below inspects it).  `none` is the `TypeError`
crash of `this.consume().type` past the end of the array. -/
def parseAtom : List Token → Option (Option Expr × Nat × List String)
  | [] => none
  | t :: _ =>
    if t.type = .VARIABLE then
      some (some (.varRef t.value), 1, [])
    else if t.type = .STRING ∨ t.type = .INTEGER then
      some (some (.lit t.value), 1, [])
    else
      some (none, 1, ["Parser: unexpected token"])

/-- `parseAtom` consumes exactly one token when it does not crash (used
for termination of the expression parsers). -/
theorem parseAtom_one {ts : List Token} {l : Option Expr} {n : Nat} {es : List String}
    (h : parseAtom ts = some (l, n, es)) : n = 1 ∧ 1 ≤ ts.length := by
  cases ts with
  | nil => simp [parseAtom] at h
  | cons t r =>
    simp only [parseAtom] at h
    split at h
    · simp_all
    · split at h <;> simp_all

/-- `Parser.peekNext`: the token after the next one, or a synthetic
`EOL`/`"EOF"` token past the end of the array. -/
def peekNext (ts : List Token) : Token :=
  match ts with
  | _ :: t2 :: _ => t2
  | _ => ⟨.EOL, .str "EOF"⟩

mutual

/-- `Parser.parseExpression`: delegates to `parseBinaryExpression`
unless the token after the next one (`peekNext`) is an EOL. -/
def parseExpression (precedence : Nat) (ts : List Token) :
    Option (Option Expr × Nat × List String) :=
  if (peekNext ts).type ≠ .EOL then parseBinaryExpression precedence ts
  else parseAtom ts
termination_by (ts.length, 2)

/-- `Parser.parseBinaryExpression`: one atom, then the operator loop
(`pbeLoop`). -/
def parseBinaryExpression (precedence : Nat) (ts : List Token) :
    Option (Option Expr × Nat × List String) :=
  match h : parseAtom ts with
  | none => none
  | some (left, n, es) =>
    match pbeLoop precedence left (ts.drop n) with
    | none => none
    | some (res, m, es2) => some (res, n + m, es ++ es2)
termination_by (ts.length, 1)
decreasing_by
  obtain ⟨rfl, hl⟩ := parseAtom_one h
  simp only [List.length_drop]
  omega

/-- The `while` loop of `parseBinaryExpression`: while the next token's
precedence strictly exceeds the floor, consume the operator, parse the
right-hand side with the operator's precedence as the new floor, and
fold `{left, operator, right}` when both the operator value and the
right-hand result are truthy (`if (operator && right)`); otherwise the
tokens are consumed but `left` is kept unchanged.  A `left` of
`undefined` (a failed atom) ends the loop at once (`while (left && …)`). -/
def pbeLoop (precedence : Nat) (left : Option Expr) (ts : List Token) :
    Option (Option Expr × Nat × List String) :=
  match left with
  | none => some (none, 0, [])
  | some l =>
    match ts with
    | [] => some (some l, 0, [])
    | t :: r =>
      let opPrec := getOperatorPrecedence t.type
      if opPrec ≤ precedence then some (some l, 0, [])
      else
        match parseExpression opPrec r with
        | none => none
        | some (right, n, es) =>
          let newLeft := match right, t.value.truthy with
            | some rex, true => Expr.binary l t.value rex
            | _, _ => l
          match pbeLoop precedence (some newLeft) (r.drop n) with
          | none => none
          | some (res, m, es2) => some (res, 1 + n + m, es ++ es2)
termination_by (ts.length, 0)

end

/-- `Parser.parseExpressionList`: while the next token exists and is not
an EOL, parse one expression (pushing it only when it is defined), then
consume a COMMA and continue, or stop at the first non-COMMA. -/
def parseExpressionList (ts : List Token) : Option (List Expr × Nat × List String) :=
  match ts with
  | [] => some ([], 0, [])
  | t :: rest =>
    if t.type = .EOL then some ([], 0, [])
    else
      match parseExpression 0 (t :: rest) with
      | none => none
      | some (e, n, es) =>
        let exprs := match e with
          | some ex => [ex]
          | none => []
        match ((t :: rest).drop n).head? with
        | some t2 =>
          if t2.type = .COMMA then
            -- consume the comma and re-enter the loop:
            -- (t :: rest).drop (n + 1) = rest.drop n
            match parseExpressionList (rest.drop n) with
            | none => none
            | some (more, m, es2) => some (exprs ++ more, n + 1 + m, es ++ es2)
          else some (exprs, n, es)
        | none => some (exprs, n, es)
termination_by ts.length
decreasing_by
  simp only [List.length_drop, List.length_cons]
  omega

/-- The outcome of `Parser.parse`: the statement list and the error log
on normal completion; `crash` when `parseAtom` reads `.type` of the
`undefined` that `consume()` returns past the end of the array (a
JavaScript `TypeError`, the only way the source actually aborts —
messages logged before it are not modelled); `diverge` when the
statement loop meets a token it has no case for: `error` only logs, the
index does not advance, and the source re-inspects the same token
forever. -/
inductive ParseResult where
  | done (statements : List Stmt) (log : List String)
  | crash
  | diverge
deriving DecidableEq, Repr

/-- `Parser.parse`, the statement loop.  For a VARIABLE token it consumes
the name, consumes the token in the `=` position without checking it
(`this.consume(); // Consume the '='` — the result is discarded), parses
one expression and pushes an AssignmentStatement only when the expression
is defined; PRINT parses an expression list; UNSUPPORTED pushes the
token's value as an `Unsupported` node; EOL is skipped; anything else
leaves the loop stuck (`diverge`). -/
def parse (ts : List Token) : ParseResult :=
  match ts with
  | [] => .done [] []
  | t :: r =>
    if t.type = .VARIABLE then
      match parseExpression 0 (r.drop 1) with
      | none => .crash
      | some (e, n, es) =>
        match parse ((r.drop 1).drop n) with
        | .done sts log =>
          .done ((match e with
            | some ex => [Stmt.assignment t.value ex]
            | none => []) ++ sts) (es ++ log)
        | other => other
    else if t.type = .PRINT then
      match parseExpressionList r with
      | none => .crash
      | some (exprs, n, es) =>
        match parse (r.drop n) with
        | .done sts log => .done (Stmt.printStmt exprs :: sts) (es ++ log)
        | other => other
    else if t.type = .UNSUPPORTED then
      match parse r with
      | .done sts log => .done (Stmt.unsupported t.value :: sts) log
      | other => other
    else if t.type = .EOL then
      parse r
    else
      .diverge
termination_by ts.length
decreasing_by
  all_goals simp only [List.length_drop, List.length_cons]
  all_goals omega

/-! ## The interpreter (class `Interpreter` of src/interpreter.ts)

`Interpreter.error` only logs (see `ErrorMessage.error`), so execution
continues after every error; the embedding threads the error log, the
lines printed by `console.log`, and the variable store. -/

/-- The `VariableStore` (`Map<string, string | number>`), embedded as an
association list in insertion order; keys are `JsVal` because the store
is keyed by `statement.varname`, which TypeScript only casts. -/
def VariableStore := List (JsVal × JsVal)

/-- `Map.prototype.has`. -/
def storeHas (st : List (JsVal × JsVal)) (k : JsVal) : Bool :=
  st.any (fun p => p.1 = k)

/-- `Map.prototype.get`: `undefined` for a missing key. -/
def storeGet (st : List (JsVal × JsVal)) (k : JsVal) : JsVal :=
  match st.find? (fun p => p.1 = k) with
  | some p => p.2
  | none => .undefined

/-- `Map.prototype.set`: overwrite in place, or append a new binding. -/
def storeSet (st : List (JsVal × JsVal)) (k v : JsVal) : List (JsVal × JsVal) :=
  match st with
  | [] => [(k, v)]
  | p :: r => if p.1 = k then (k, v) :: r else p :: storeSet r k v

/-- `Interpreter.evaluateExpression`: returns the value (possibly
`undefined`) and the error log.  An undefined variable is reported and
then `variables.get(...)` — `undefined` — is returned anyway; a
non-numeric operand is reported and the `break` falls out of the switch,
returning `undefined`; an unknown operator falls through every `case` and
returns `undefined`.  Division is JavaScript's real division (embedded on
`ℚ`, see `JsVal` for the `x / 0` caveat). -/
def evaluateExpression (vars : List (JsVal × JsVal)) : Expr → JsVal × List String
  | .varRef n =>
    (storeGet vars n,
      if storeHas vars n then []
      else ["Interpreter: variable '" ++ jsToDisplay n ++ "' is not defined"])
  | .lit v => (v, [])
  | .binary l op r =>
    let pl := evaluateExpression vars l
    let pr := evaluateExpression vars r
    match pl.1, pr.1 with
    | .num a, .num b =>
      (if op = .str "+" then .num (a + b)
       else if op = .str "-" then .num (a - b)
       else if op = .str "*" then .num (a * b)
       else if op = .str "/" then .num (a / b)
       else .undefined, pl.2 ++ pr.2)
    | _, _ => (.undefined, pl.2 ++ pr.2 ++ ["Interpreter: operands must be numbers"])

/-- `Interpreter.interpret`: runs the statements in order against the
store, returning the final store, the printed lines (one `console.log`
line per PrintStatement) and the error log.  An assignment stores the
result only when it is truthy (`if (result)`), otherwise it reports
`error evaluating expression`; a print evaluates every expression,
filters out `undefined` results and joins the rest with single spaces;
any other statement node hits the `default` case, which reports
`unsupported statement: ${statement.type}` — the node's type tag, not
the directive text — and continues. -/
def interpret : List Stmt → List (JsVal × JsVal) →
    List (JsVal × JsVal) × List String × List String
  | [], st => (st, [], [])
  | s :: rest, st =>
    match s with
    | .assignment name value =>
      let p := evaluateExpression st value
      if p.1.truthy then
        let q := interpret rest (storeSet st name p.1)
        (q.1, q.2.1, p.2 ++ q.2.2)
      else
        let q := interpret rest st
        (q.1, q.2.1, p.2 ++ ["Interpreter: error evaluating expression"] ++ q.2.2)
    | .printStmt exprs =>
      let evals := exprs.map (evaluateExpression st)
      let values := (evals.map Prod.fst).filter (fun v => v ≠ JsVal.undefined)
      let line := String.intercalate " " (values.map jsToDisplay)
      let q := interpret rest st
      (q.1, line :: q.2.1, (evals.map Prod.snd).flatten ++ q.2.2)
    | .unsupported _ =>
      let q := interpret rest st
      (q.1, q.2.1, ("Interpreter: unsupported statement: " ++ s.typeTag) :: q.2.2)

/-! ## Single-lexeme stepping lemmas

One lemma per lexical rule and lexer: consuming one clean lexeme prepends
its token (or nothing, for whitespace and comments) and continues with
the rest of the input.  These drive the equivalence and composition
theorems below. -/

/-- `takeWhile` over a satisfied prefix stops exactly at a boundary whose
first element fails the predicate. -/
theorem takeWhile_append_stop {p : Char → Bool} {xs ys : List Char}
    (h : ∀ x ∈ xs, p x = true) (hy : ∀ y, ys.head? = some y → p y = false) :
    (xs ++ ys).takeWhile p = xs := by
  induction xs with
  | nil =>
    cases ys with
    | nil => rfl
    | cons y t => simp [List.takeWhile_cons, hy y rfl]
  | cons x xs ih =>
    have hx := h x (by simp)
    have ih2 := ih (fun a ha => h a (by simp [ha]))
    simp [List.cons_append, List.takeWhile_cons, hx, ih2]

/-- `dropWhile` counterpart of `takeWhile_append_stop`. -/
theorem dropWhile_append_stop {p : Char → Bool} {xs ys : List Char}
    (h : ∀ x ∈ xs, p x = true) (hy : ∀ y, ys.head? = some y → p y = false) :
    (xs ++ ys).dropWhile p = ys := by
  induction xs with
  | nil =>
    cases ys with
    | nil => rfl
    | cons y t => simp [List.dropWhile_cons, hy y rfl]
  | cons x xs ih =>
    have hx := h x (by simp)
    have ih2 := ih (fun a ha => h a (by simp [ha]))
    simp [List.cons_append, List.dropWhile_cons, hx, ih2]

/-- Dropping a one-character marker plus a run leaves the rest. -/
theorem drop_one_add (c : Char) (xs r : List Char) :
    ((c :: (xs ++ r)).drop (1 + xs.length)) = r := by
  have h1 : c :: (xs ++ r) = (c :: xs) ++ r := rfl
  have h2 : 1 + xs.length = (c :: xs).length := by simp [Nat.add_comm]
  rw [h1, h2, List.drop_left]

/-- Dropping a comment marker, its text and the closing newline leaves
the rest. -/
theorem drop_comment_line (xs r : List Char) :
    (('%' :: (xs ++ '\n' :: r)).drop (1 + xs.length + 1)) = r := by
  have h1 : '%' :: (xs ++ '\n' :: r) = ('%' :: xs ++ ['\n']) ++ r := by simp
  have h2 : 1 + xs.length + 1 = ('%' :: xs ++ ['\n']).length := by
    simp [Nat.add_comm]
  rw [h1, h2, List.drop_left]

theorem isDigit_cases {c : Char} (h : c.isDigit = true) :
    c = '0' ∨ c = '1' ∨ c = '2' ∨ c = '3' ∨ c = '4' ∨ c = '5' ∨ c = '6' ∨ c = '7' ∨
      c = '8' ∨ c = '9' := by
  simp only [Char.isDigit, ge_iff_le, Bool.and_eq_true, decide_eq_true_eq] at h
  obtain ⟨h1, h2⟩ := h
  have h1' : 48 ≤ c.val.toNat := h1
  have h2' : c.val.toNat ≤ 57 := h2
  have hx : ∀ n : Nat, c.val.toNat = n → ∀ d : Char, d.val.toNat = n → c = d := by
    intro n hn d hd
    exact Char.ext (UInt32.ext (hn.trans hd.symm))
  rcases (by omega :
      c.val.toNat = 48 ∨ c.val.toNat = 49 ∨ c.val.toNat = 50 ∨ c.val.toNat = 51 ∨
      c.val.toNat = 52 ∨ c.val.toNat = 53 ∨ c.val.toNat = 54 ∨ c.val.toNat = 55 ∨
      c.val.toNat = 56 ∨ c.val.toNat = 57) with hv|hv|hv|hv|hv|hv|hv|hv|hv|hv
  · exact Or.inl (hx _ hv _ (by decide))
  · exact Or.inr (Or.inl (hx _ hv _ (by decide)))
  · exact Or.inr (Or.inr (Or.inl (hx _ hv _ (by decide))))
  · exact Or.inr (Or.inr (Or.inr (Or.inl (hx _ hv _ (by decide)))))
  · exact Or.inr (Or.inr (Or.inr (Or.inr (Or.inl (hx _ hv _ (by decide))))))
  · exact Or.inr (Or.inr (Or.inr (Or.inr (Or.inr (Or.inl (hx _ hv _ (by decide)))))))
  · exact Or.inr (Or.inr (Or.inr (Or.inr (Or.inr (Or.inr (Or.inl (hx _ hv _ (by decide))))))))
  · exact Or.inr (Or.inr (Or.inr (Or.inr (Or.inr (Or.inr (Or.inr (Or.inl (hx _ hv _ (by decide)))))))))
  · exact Or.inr (Or.inr (Or.inr (Or.inr (Or.inr (Or.inr (Or.inr (Or.inr (Or.inl (hx _ hv _ (by decide))))))))))
  · exact Or.inr (Or.inr (Or.inr (Or.inr (Or.inr (Or.inr (Or.inr (Or.inr (Or.inr (hx _ hv _ (by decide))))))))))

theorem digit_not_jsWhitespace {c : Char} (h : c.isDigit = true) : jsWhitespace c = false := by
  rcases isDigit_cases h with rfl | rfl | rfl | rfl | rfl | rfl | rfl | rfl | rfl | rfl <;> decide

/-- Dropping a one-character marker, a run, and a closing one-character
marker leaves the rest (comments and string literals). -/
theorem drop_marker_wrap (a b : Char) (xs r : List Char) :
    ((a :: (xs ++ b :: r)).drop (1 + xs.length + 1)) = r := by
  have h1 : a :: (xs ++ b :: r) = (a :: xs ++ [b]) ++ r := by simp
  have h2 : 1 + xs.length + 1 = (a :: xs ++ [b]).length := by simp [Nat.add_comm]
  rw [h1, h2, List.drop_left]

/-- The generic driver step of the table lexer, with the matched rule
given by an explicit `findMatch` equation. -/
theorem lexTableGo_step {c : Char} {r : List Char} {rule : LexerRule} {n : Nat} {v : JsVal}
    (hfm : findMatch lexerRules (c :: r) = some (rule, n, v)) :
    lexTableGo (c :: r) =
      (let v2 := match rule.action with
        | some f => f v
        | none => v
       let toks := lexTableGo ((c :: r).drop (n + (if rule.skipNextSymbol then 1 else 0)))
       if rule.skipToken then toks
       else toks.map (fun ts => ⟨rule.tokenType, v2⟩ :: ts)) := by
  rw [lexTableGo.eq_def]
  split
  · rename_i heq
    cases heq
  · rename_i c' r' heq
    injection heq with h1 h2
    subst h1; subst h2
    split
    · rename_i heq2
      rw [hfm] at heq2
      cases heq2
    · rename_i rule' n' v' heq2
      rw [hfm] at heq2
      obtain ⟨rfl, rfl, rfl⟩ := by simpa using heq2.symm
      rfl

/-- When no rule matches, the embedded table lexer is `none` (the source
loops forever at that position). -/
theorem lexTableGo_stuck {c : Char} {r : List Char}
    (hfm : findMatch lexerRules (c :: r) = none) : lexTableGo (c :: r) = none := by
  rw [lexTableGo.eq_def]
  split
  · rename_i heq
    cases heq
  · rename_i c' r' heq
    injection heq with h1 h2
    subst h1; subst h2
    split
    · rfl
    · rename_i rule' n' v' heq2
      rw [hfm] at heq2
      cases heq2

theorem tableStep_eol (c : Char) (r : List Char) (hc : c = '\n' ∨ c = ';') :
    lexTableGo (c :: r) =
      (lexTableGo r).map (fun ts => ⟨.EOL, .str (String.singleton c)⟩ :: ts) := by
  have hfm : findMatch lexerRules (c :: r) =
      some ({ matcher := matchEol, tokenType := .EOL, skipToken := false,
              skipNextSymbol := false, action := none }, 1, .str (String.singleton c)) := by
    rcases hc with rfl | rfl <;> simp [findMatch, lexerRules, matchEol]
  rw [lexTableGo_step hfm]
  simp

theorem tableStep_ws (cs r : List Char) (h0 : cs ≠ [])
    (hall : ∀ c ∈ cs, jsWhitespace c = true)
    (hh : ∀ c, cs.head? = some c → ¬(c = '\n'))
    (hnext : ∀ d, r.head? = some d → jsWhitespace d = false) :
    lexTableGo (cs ++ r) = lexTableGo r := by
  match cs, h0 with
  | c :: cs', _ =>
    have hc := hall c (by simp)
    have hcn : ¬(c = '\n') := hh c rfl
    have hsemi : ¬(c = ';') := fun h => by subst h; exact absurd hc (by decide)
    have htw : ((c :: cs') ++ r).takeWhile jsWhitespace = c :: cs' :=
      takeWhile_append_stop hall hnext
    have hfm : findMatch lexerRules (c :: (cs' ++ r)) =
        some ({ matcher := matchWs, tokenType := .WHITESPACE, skipToken := true,
                skipNextSymbol := false, action := none },
              (c :: cs').length, .str (String.mk (c :: cs'))) := by
      simp only [List.cons_append] at htw
      simp [findMatch, lexerRules, matchEol, matchWs, htw, hcn, hsemi]
    rw [show (c :: cs') ++ r = c :: (cs' ++ r) from rfl, lexTableGo_step hfm]
    simp only [List.length_cons, Nat.add_zero, if_false, Bool.false_eq_true, if_true]
    rw [List.drop_succ_cons, List.drop_left]

theorem tableStep_comment (xs r : List Char) (hx : ∀ c ∈ xs, isLineTerm c = false) :
    lexTableGo ('%' :: (xs ++ '\n' :: r)) = lexTableGo r := by
  have htw : (xs ++ '\n' :: r).takeWhile (fun x => !isLineTerm x) = xs :=
    takeWhile_append_stop (fun x h => by simp [hx x h])
      (fun y hy => by simp at hy; subst hy; decide)
  have hfm : findMatch lexerRules ('%' :: (xs ++ '\n' :: r)) =
      some ({ matcher := matchComment, tokenType := .COMMENT, skipToken := true,
              skipNextSymbol := true, action := none },
            1 + xs.length, .str (String.mk ('%' :: xs))) := by
    simp [findMatch, lexerRules, matchEol, matchWs, matchComment, htw, jsWhitespace]
  rw [lexTableGo_step hfm]
  simp only [if_true]
  rw [drop_marker_wrap]

theorem tableStep_unsup (name r : List Char) (h0 : name ≠ [])
    (hall : ∀ c ∈ name, isWordChar c = true)
    (hnext : ∀ d, r.head? = some d → isWordChar d = false) :
    lexTableGo ('@' :: (name ++ r)) =
      (lexTableGo r).map
        (fun ts => ⟨.UNSUPPORTED, .str (String.mk ('@' :: name))⟩ :: ts) := by
  have htw : (name ++ r).takeWhile isWordChar = name := takeWhile_append_stop hall hnext
  have hne : name.isEmpty = false := by
    cases name with
    | nil => exact absurd rfl h0
    | cons a l => rfl
  have hfm : findMatch lexerRules ('@' :: (name ++ r)) =
      some ({ matcher := matchUnsupported, tokenType := .UNSUPPORTED, skipToken := false,
              skipNextSymbol := false, action := none },
            1 + name.length, .str (String.mk ('@' :: name))) := by
    simp [findMatch, lexerRules, matchEol, matchWs, matchComment, matchUnsupported, htw, hne,
      jsWhitespace]
  rw [lexTableGo_step hfm]
  simp only [Nat.add_zero, if_false, Bool.false_eq_true]
  rw [drop_one_add]

theorem tableStep_var (name r : List Char) (h0 : name ≠ [])
    (hall : ∀ c ∈ name, isWordChar c = true)
    (hnext : ∀ d, r.head? = some d → isWordChar d = false) :
    lexTableGo ('$' :: (name ++ r)) =
      (lexTableGo r).map (fun ts => ⟨.VARIABLE, .str (String.mk name)⟩ :: ts) := by
  have htw : (name ++ r).takeWhile isWordChar = name := takeWhile_append_stop hall hnext
  have hne : name.isEmpty = false := by
    cases name with
    | nil => exact absurd rfl h0
    | cons a l => rfl
  have hfm : findMatch lexerRules ('$' :: (name ++ r)) =
      some ({ matcher := matchVariable, tokenType := .VARIABLE, skipToken := false,
              skipNextSymbol := false, action := none },
            1 + name.length, .str (String.mk name)) := by
    simp [findMatch, lexerRules, matchEol, matchWs, matchComment, matchUnsupported,
      matchSingle, matchVariable, htw, hne, jsWhitespace]
  rw [lexTableGo_step hfm]
  simp only [Nat.add_zero, if_false, Bool.false_eq_true]
  rw [drop_one_add]

theorem tableStep_equal (r : List Char) :
    lexTableGo ('=' :: r) =
      (lexTableGo r).map (fun ts => ⟨.EQUAL, .str "="⟩ :: ts) := by
  have hfm : findMatch lexerRules ('=' :: r) =
      some ({ matcher := matchSingle '=', tokenType := .EQUAL, skipToken := false,
              skipNextSymbol := false, action := none }, 1, .str "=") := by
    simp [findMatch, lexerRules, matchEol, matchWs, matchComment, matchUnsupported,
      matchSingle, jsWhitespace, List.takeWhile_cons]
    decide
  rw [lexTableGo_step hfm]
  simp

theorem tableStep_comma (r : List Char) :
    lexTableGo (',' :: r) =
      (lexTableGo r).map (fun ts => ⟨.COMMA, .str ","⟩ :: ts) := by
  have hfm : findMatch lexerRules (',' :: r) =
      some ({ matcher := matchSingle ',', tokenType := .COMMA, skipToken := false,
              skipNextSymbol := false, action := none }, 1, .str ",") := by
    simp [findMatch, lexerRules, matchEol, matchWs, matchComment, matchUnsupported,
      matchSingle, jsWhitespace, List.takeWhile_cons]
    decide
  rw [lexTableGo_step hfm]
  simp

theorem tableStep_plus (r : List Char) :
    lexTableGo ('+' :: r) =
      (lexTableGo r).map (fun ts => ⟨.PLUS, .str "+"⟩ :: ts) := by
  have hfm : findMatch lexerRules ('+' :: r) =
      some ({ matcher := matchSingle '+', tokenType := .PLUS, skipToken := false,
              skipNextSymbol := false, action := none }, 1, .str "+") := by
    simp [findMatch, lexerRules, matchEol, matchWs, matchComment, matchUnsupported,
      matchSingle, jsWhitespace, List.takeWhile_cons]
    decide
  rw [lexTableGo_step hfm]
  simp

theorem tableStep_minus (r : List Char) :
    lexTableGo ('-' :: r) =
      (lexTableGo r).map (fun ts => ⟨.MINUS, .str "-"⟩ :: ts) := by
  have hfm : findMatch lexerRules ('-' :: r) =
      some ({ matcher := matchSingle '-', tokenType := .MINUS, skipToken := false,
              skipNextSymbol := false, action := none }, 1, .str "-") := by
    simp [findMatch, lexerRules, matchEol, matchWs, matchComment, matchUnsupported,
      matchSingle, jsWhitespace, List.takeWhile_cons]
    decide
  rw [lexTableGo_step hfm]
  simp

theorem tableStep_mult (r : List Char) :
    lexTableGo ('*' :: r) =
      (lexTableGo r).map (fun ts => ⟨.MULTIPLY, .str "*"⟩ :: ts) := by
  have hfm : findMatch lexerRules ('*' :: r) =
      some ({ matcher := matchSingle '*', tokenType := .MULTIPLY, skipToken := false,
              skipNextSymbol := false, action := none }, 1, .str "*") := by
    simp [findMatch, lexerRules, matchEol, matchWs, matchComment, matchUnsupported,
      matchSingle, jsWhitespace, List.takeWhile_cons]
    decide
  rw [lexTableGo_step hfm]
  simp

theorem tableStep_div (r : List Char) :
    lexTableGo ('/' :: r) =
      (lexTableGo r).map (fun ts => ⟨.DIVISION, .str "/"⟩ :: ts) := by
  have hfm : findMatch lexerRules ('/' :: r) =
      some ({ matcher := matchSingle '/', tokenType := .DIVISION, skipToken := false,
              skipNextSymbol := false, action := none }, 1, .str "/") := by
    simp [findMatch, lexerRules, matchEol, matchWs, matchComment, matchUnsupported,
      matchSingle, jsWhitespace, List.takeWhile_cons]
    decide
  rw [lexTableGo_step hfm]
  simp

theorem tableStep_int (ds r : List Char) (h0 : ds ≠ [])
    (hall : ∀ c ∈ ds, c.isDigit = true)
    (hnext : ∀ d, r.head? = some d → d.isDigit = false) :
    lexTableGo (ds ++ r) =
      (lexTableGo r).map (fun ts => ⟨.INTEGER, .num (digitsToNat ds)⟩ :: ts) := by
  match ds, h0 with
  | d :: ds', _ =>
    have hd := hall d (by simp)
    have hw : jsWhitespace d = false := digit_not_jsWhitespace hd
    have e1 : ¬(d = '\n') := fun h => by subst h; exact absurd hd (by decide)
    have e2 : ¬(d = ';') := fun h => by subst h; exact absurd hd (by decide)
    have e3 : ¬(d = '%') := fun h => by subst h; exact absurd hd (by decide)
    have e4 : ¬(d = '@') := fun h => by subst h; exact absurd hd (by decide)
    have e5 : ¬(d = '=') := fun h => by subst h; exact absurd hd (by decide)
    have e6 : ¬(d = ',') := fun h => by subst h; exact absurd hd (by decide)
    have e7 : ¬(d = '+') := fun h => by subst h; exact absurd hd (by decide)
    have e8 : ¬(d = '-') := fun h => by subst h; exact absurd hd (by decide)
    have e9 : ¬(d = '*') := fun h => by subst h; exact absurd hd (by decide)
    have e10 : ¬(d = '/') := fun h => by subst h; exact absurd hd (by decide)
    have e11 : ¬(d = '$') := fun h => by subst h; exact absurd hd (by decide)
    have e12 : ¬(d = '"') := fun h => by subst h; exact absurd hd (by decide)
    have htw : ((d :: ds') ++ r).takeWhile Char.isDigit = d :: ds' :=
      takeWhile_append_stop hall hnext
    have hfm : findMatch lexerRules (d :: (ds' ++ r)) =
        some ({ matcher := matchInt, tokenType := .INTEGER, skipToken := false,
                skipNextSymbol := false,
                action := some (fun v => match v with
                  | .str s => .num (digitsToNat s.toList)
                  | v => v) },
              (d :: ds').length, .str (String.mk (d :: ds'))) := by
      simp only [List.cons_append] at htw
      simp [findMatch, lexerRules, matchEol, matchWs, matchComment, matchUnsupported,
        matchSingle, matchVariable, matchStr, matchInt, htw, hw, e1, e2, e3, e4, e5, e6,
        e7, e8, e9, e10, e11, e12, List.takeWhile_cons]
    rw [show (d :: ds') ++ r = d :: (ds' ++ r) from rfl, lexTableGo_step hfm]
    simp only [List.length_cons, Nat.add_zero, if_false, Bool.false_eq_true,
      List.drop_succ_cons, List.drop_left, String.toList]

theorem tableStep_print (r : List Char) :
    lexTableGo ('P' :: 'R' :: 'I' :: 'N' :: 'T' :: r) =
      (lexTableGo r).map (fun ts => ⟨.PRINT, .str "PRINT"⟩ :: ts) := by
  have hfm : findMatch lexerRules ('P' :: 'R' :: 'I' :: 'N' :: 'T' :: r) =
      some ({ matcher := matchPrintKw, tokenType := .PRINT, skipToken := false,
              skipNextSymbol := false, action := none }, 5, .str "PRINT") := by
    simp [findMatch, lexerRules, matchEol, matchWs, matchComment, matchUnsupported,
      matchSingle, matchVariable, matchStr, matchInt, matchPrintKw, jsWhitespace,
      List.takeWhile_cons]
  rw [lexTableGo_step hfm]
  simp only [Nat.add_zero, if_false, Bool.false_eq_true]
  rw [show ('P' :: 'R' :: 'I' :: 'N' :: 'T' :: r).drop 5 = r from rfl]

/-! ### Clean string literals

A clean string literal body is a sequence of units: a plain character
(neither `"` nor `\`) or an escape `\"` or `\\`.  On such bodies the two
lexers' string handling agrees: the hand-written `readString` copies the
escaped character verbatim, and the table rule's `replace` removes
exactly the backslashes before `"` and `\`. -/

/-- One unit of a clean string literal body. -/
inductive StrUnit where
  | plain (c : Char)
  | esc (c : Char)
deriving DecidableEq, Repr

/-- A unit is clean: a plain character is neither `"` nor `\`, an escaped
one is `"` or `\`. -/
def StrUnit.ok : StrUnit → Bool
  | .plain c => !(c = '"') && !(c = '\\')
  | .esc c => c = '"' || c = '\\'

/-- The characters of a unit sequence as written in the source text. -/
def encodeUnits : List StrUnit → List Char
  | [] => []
  | .plain c :: us => c :: encodeUnits us
  | .esc c :: us => '\\' :: c :: encodeUnits us

/-- The decoded characters of a unit sequence (escapes collapsed). -/
def decodeUnits : List StrUnit → List Char
  | [] => []
  | .plain c :: us => c :: decodeUnits us
  | .esc c :: us => c :: decodeUnits us

theorem strScan_encode (us : List StrUnit) (hok : ∀ u ∈ us, u.ok = true) (r : List Char) :
    strScan (encodeUnits us ++ '"' :: r) =
      some (encodeUnits us, (encodeUnits us).length + 1) := by
  induction us with
  | nil =>
    simp only [encodeUnits, List.nil_append, List.length_nil]
    rw [strScan.eq_def]
    simp
  | cons u us ih =>
    have hu := hok u (by simp)
    have ih2 := ih (fun v hv => hok v (by simp [hv]))
    cases u with
    | plain c =>
      simp only [StrUnit.ok, Bool.and_eq_true, Bool.not_eq_true', decide_eq_false_iff_not] at hu
      simp only [encodeUnits, List.cons_append]
      rw [strScan.eq_def]
      simp [hu.1, hu.2, ih2]
    | esc c =>
      simp only [StrUnit.ok, Bool.or_eq_true, decide_eq_true_eq] at hu
      have hnl : isLineTerm c = false := by rcases hu with rfl | rfl <;> decide
      simp only [encodeUnits, List.cons_append]
      rw [strScan.eq_def]
      simp [hnl, ih2]

theorem unescape_encode (us : List StrUnit) (hok : ∀ u ∈ us, u.ok = true) :
    unescapeJs (encodeUnits us) = decodeUnits us := by
  induction us with
  | nil => simp [encodeUnits, decodeUnits, unescapeJs]
  | cons u us ih =>
    have hu := hok u (by simp)
    have ih2 := ih (fun v hv => hok v (by simp [hv]))
    cases u with
    | plain c =>
      simp only [StrUnit.ok, Bool.and_eq_true, Bool.not_eq_true', decide_eq_false_iff_not] at hu
      simp only [encodeUnits, decodeUnits]
      rw [unescapeJs.eq_def]
      simp [hu.1, hu.2, ih2]
    | esc c =>
      simp only [StrUnit.ok, Bool.or_eq_true, decide_eq_true_eq] at hu
      have hb : (decide (c = '"') || decide (c = '\\')) = true := by
        rcases hu with rfl | rfl <;> decide
      simp only [encodeUnits, decodeUnits]
      rw [unescapeJs.eq_def]
      simp [hb, ih2]

/-- `String.singleton` prepends under `String.mk`. -/
theorem singleton_append_mk (c : Char) (l : List Char) :
    String.singleton c ++ String.mk l = String.mk (c :: l) := rfl

theorem readStringHand_encode (us : List StrUnit) (hok : ∀ u ∈ us, u.ok = true)
    (r : List Char) :
    readStringHand (encodeUnits us ++ '"' :: r) = (String.mk (decodeUnits us), r) := by
  induction us with
  | nil =>
    simp only [encodeUnits, decodeUnits, List.nil_append]
    rw [readStringHand.eq_def]
    simp
  | cons u us ih =>
    have hu := hok u (by simp)
    have ih2 := ih (fun v hv => hok v (by simp [hv]))
    cases u with
    | plain c =>
      simp only [StrUnit.ok, Bool.and_eq_true, Bool.not_eq_true', decide_eq_false_iff_not] at hu
      simp only [encodeUnits, decodeUnits, List.cons_append]
      rw [readStringHand.eq_def]
      simp [hu.1, hu.2, ih2, singleton_append_mk]
    | esc c =>
      simp only [encodeUnits, decodeUnits, List.cons_append]
      rw [readStringHand.eq_def]
      simp [ih2, singleton_append_mk]

theorem tableStep_str (us : List StrUnit) (hok : ∀ u ∈ us, u.ok = true) (r : List Char) :
    lexTableGo ('"' :: (encodeUnits us ++ '"' :: r)) =
      (lexTableGo r).map
        (fun ts => ⟨.STRING, .str (String.mk (decodeUnits us))⟩ :: ts) := by
  have hs := strScan_encode us hok r
  have hfm : findMatch lexerRules ('"' :: (encodeUnits us ++ '"' :: r)) =
      some ({ matcher := matchStr, tokenType := .STRING, skipToken := false,
              skipNextSymbol := false,
              action := some (fun v => match v with
                | .str s => .str (String.mk (unescapeJs s.toList))
                | v => v) },
            1 + ((encodeUnits us).length + 1), .str (String.mk (encodeUnits us))) := by
    simp [findMatch, lexerRules, matchEol, matchWs, matchComment, matchUnsupported,
      matchSingle, matchVariable, matchStr, hs, jsWhitespace, List.takeWhile_cons]
  rw [lexTableGo_step hfm]
  simp only [Nat.add_zero, if_false, Bool.false_eq_true, String.toList,
    unescape_encode us hok]
  rw [show (1 + ((encodeUnits us).length + 1)) = 1 + (encodeUnits us).length + 1 from by omega,
    drop_marker_wrap]

/-- `"@" ++` prepends under `String.mk`. -/
theorem at_append_mk (l : List Char) : "@" ++ String.mk l = String.mk ('@' :: l) := rfl

theorem handStep_ws (c : Char) (r : List Char) (hc : c = ' ' ∨ c = '\t') :
    lexHandGo (c :: r) = lexHandGo r := by
  rcases hc with rfl | rfl <;> (rw [lexHandGo.eq_def]; simp)

theorem handStep_eol (c : Char) (r : List Char) (hc : c = ';' ∨ c = '\n') :
    lexHandGo (c :: r) =
      (⟨.EOL, .str (String.singleton c)⟩ :: (lexHandGo r).1, (lexHandGo r).2) := by
  rcases hc with rfl | rfl <;> (rw [lexHandGo.eq_def]; simp)

theorem handStep_equal (r : List Char) :
    lexHandGo ('=' :: r) = (⟨.EQUAL, .str "="⟩ :: (lexHandGo r).1, (lexHandGo r).2) := by
  rw [lexHandGo.eq_def]; simp

theorem handStep_comma (r : List Char) :
    lexHandGo (',' :: r) = (⟨.COMMA, .str ","⟩ :: (lexHandGo r).1, (lexHandGo r).2) := by
  rw [lexHandGo.eq_def]; simp

theorem handStep_plus (r : List Char) :
    lexHandGo ('+' :: r) = (⟨.PLUS, .str "+"⟩ :: (lexHandGo r).1, (lexHandGo r).2) := by
  rw [lexHandGo.eq_def]; simp

theorem handStep_minus (r : List Char) :
    lexHandGo ('-' :: r) = (⟨.MINUS, .str "-"⟩ :: (lexHandGo r).1, (lexHandGo r).2) := by
  rw [lexHandGo.eq_def]; simp

theorem handStep_mult (r : List Char) :
    lexHandGo ('*' :: r) = (⟨.MULTIPLY, .str "*"⟩ :: (lexHandGo r).1, (lexHandGo r).2) := by
  rw [lexHandGo.eq_def]; simp

theorem handStep_div (r : List Char) :
    lexHandGo ('/' :: r) = (⟨.DIVISION, .str "/"⟩ :: (lexHandGo r).1, (lexHandGo r).2) := by
  rw [lexHandGo.eq_def]; simp

theorem handStep_print (r : List Char) :
    lexHandGo ('P' :: 'R' :: 'I' :: 'N' :: 'T' :: r) =
      (⟨.PRINT, .str "PRINT"⟩ :: (lexHandGo r).1, (lexHandGo r).2) := by
  rw [lexHandGo.eq_def]; simp

theorem handStep_var (d : Char) (name' r : List Char) (hd : isAlphaUnd d = true)
    (hall : ∀ c ∈ name', isAlphaUnd c = true)
    (hnext : ∀ x, r.head? = some x → isAlphaUnd x = false) :
    lexHandGo ('$' :: d :: (name' ++ r)) =
      (⟨.VARIABLE, .str (String.mk (d :: name'))⟩ :: (lexHandGo r).1, (lexHandGo r).2) := by
  rw [lexHandGo.eq_def]
  simp [hd, takeWhile_append_stop hall hnext, dropWhile_append_stop hall hnext]

theorem handStep_unsup (d : Char) (name' r : List Char) (hd : isAlphaUnd d = true)
    (hall : ∀ c ∈ name', isAlphaUnd c = true)
    (hnext : ∀ x, r.head? = some x → isAlphaUnd x = false) :
    lexHandGo ('@' :: d :: (name' ++ r)) =
      (⟨.UNSUPPORTED, .str (String.mk ('@' :: d :: name'))⟩ :: (lexHandGo r).1,
        (lexHandGo r).2) := by
  rw [lexHandGo.eq_def]
  simp [hd, takeWhile_append_stop hall hnext, dropWhile_append_stop hall hnext, at_append_mk]

theorem handStep_int (d : Char) (ds' r : List Char) (hd : d.isDigit = true)
    (hall : ∀ c ∈ ds', c.isDigit = true)
    (hnext : ∀ x, r.head? = some x → x.isDigit = false) :
    lexHandGo (d :: (ds' ++ r)) =
      (⟨.INTEGER, .num (digitsToNat (d :: ds'))⟩ :: (lexHandGo r).1, (lexHandGo r).2) := by
  have e1 : ¬(d = ' ') := fun h => by subst h; exact absurd hd (by decide)
  have e2 : ¬(d = '\t') := fun h => by subst h; exact absurd hd (by decide)
  have e3 : ¬(d = '%') := fun h => by subst h; exact absurd hd (by decide)
  have e4 : ¬(d = '@') := fun h => by subst h; exact absurd hd (by decide)
  have e5 : ¬(d = '=') := fun h => by subst h; exact absurd hd (by decide)
  have e6 : ¬(d = '+') := fun h => by subst h; exact absurd hd (by decide)
  have e7 : ¬(d = '-') := fun h => by subst h; exact absurd hd (by decide)
  have e8 : ¬(d = '*') := fun h => by subst h; exact absurd hd (by decide)
  have e9 : ¬(d = '/') := fun h => by subst h; exact absurd hd (by decide)
  have e10 : ¬(d = ',') := fun h => by subst h; exact absurd hd (by decide)
  have e11 : ¬(d = ';') := fun h => by subst h; exact absurd hd (by decide)
  have e12 : ¬(d = '\n') := fun h => by subst h; exact absurd hd (by decide)
  have e13 : ¬(d = 'P') := fun h => by subst h; exact absurd hd (by decide)
  have e14 : ¬(d = '$') := fun h => by subst h; exact absurd hd (by decide)
  have e15 : ¬(d = '"') := fun h => by subst h; exact absurd hd (by decide)
  rw [lexHandGo.eq_def]
  simp [hd, e1, e2, e3, e4, e5, e6, e7, e8, e9, e10, e11, e12, e13, e14, e15,
    takeWhile_append_stop hall hnext, dropWhile_append_stop hall hnext]

theorem handStep_str (us : List StrUnit) (hok : ∀ u ∈ us, u.ok = true) (r : List Char) :
    lexHandGo ('"' :: (encodeUnits us ++ '"' :: r)) =
      (⟨.STRING, .str (String.mk (decodeUnits us))⟩ :: (lexHandGo r).1, (lexHandGo r).2) := by
  rw [lexHandGo.eq_def]
  simp [readStringHand_encode us hok r]

theorem handStep_comment (xs r : List Char) (hx : ∀ c ∈ xs, ¬(c = '\n')) :
    lexHandGo ('%' :: (xs ++ '\n' :: r)) = lexHandGo r := by
  have hdw : (xs ++ '\n' :: r).dropWhile (fun x => !(x = '\n')) = '\n' :: r :=
    dropWhile_append_stop (fun x h => by simp [hx x h])
      (fun y hy => by simp at hy; subst hy; simp)
  rw [lexHandGo.eq_def]
  simp [hdw]

/-- `[a-zA-Z_]` characters are `\w` characters. -/
theorem alphaUnd_isWordChar {c : Char} (h : isAlphaUnd c = true) : isWordChar c = true := by
  simp only [isAlphaUnd, Bool.or_eq_true, Bool.and_eq_true] at h
  simp only [isWordChar, Bool.or_eq_true, Bool.and_eq_true]
  tauto

/-- The hand-written lexer skips a run of spaces and tabs. -/
theorem handStep_wsRun (cs r : List Char) (hall : ∀ c ∈ cs, c = ' ' ∨ c = '\t') :
    lexHandGo (cs ++ r) = lexHandGo r := by
  induction cs with
  | nil => rfl
  | cons c cs ih =>
    rw [List.cons_append, handStep_ws c _ (hall c (by simp))]
    exact ih (fun x hx => hall x (by simp [hx]))

/-- Inputs made of clean lexemes, on which the hand-written and the
table-driven lexer behave identically, together with the token sequence
both produce.  The side conditions mark exactly the boundaries at which
the two lexers would otherwise diverge: whitespace runs contain only
spaces and tabs and do not run into further `\s` characters (the table
rule would swallow a following newline), identifiers use `[a-zA-Z_]` and
are not followed by a `\w` character (the table patterns also take
digits), string bodies are sequences of clean units (see `StrUnit.ok`),
comments end in a newline, and digit runs are maximal. -/
inductive CleanLexes : List Char → List Token → Prop where
  | nil : CleanLexes [] []
  | eol (c : Char) (r : List Char) (toks : List Token) (hc : c = ';' ∨ c = '\n')
      (h : CleanLexes r toks) :
      CleanLexes (c :: r) (⟨.EOL, .str (String.singleton c)⟩ :: toks)
  | ws (cs r : List Char) (toks : List Token) (h0 : cs ≠ [])
      (hall : ∀ c ∈ cs, c = ' ' ∨ c = '\t')
      (hnext : ∀ d, r.head? = some d → jsWhitespace d = false)
      (h : CleanLexes r toks) : CleanLexes (cs ++ r) toks
  | comment (xs r : List Char) (toks : List Token)
      (hx : ∀ c ∈ xs, isLineTerm c = false)
      (h : CleanLexes r toks) : CleanLexes ('%' :: (xs ++ '\n' :: r)) toks
  | unsup (d : Char) (name' r : List Char) (toks : List Token)
      (hd : isAlphaUnd d = true) (hall : ∀ c ∈ name', isAlphaUnd c = true)
      (hnext : ∀ x, r.head? = some x → isWordChar x = false)
      (h : CleanLexes r toks) :
      CleanLexes ('@' :: d :: (name' ++ r))
        (⟨.UNSUPPORTED, .str (String.mk ('@' :: d :: name'))⟩ :: toks)
  | equal (r : List Char) (toks : List Token) (h : CleanLexes r toks) :
      CleanLexes ('=' :: r) (⟨.EQUAL, .str "="⟩ :: toks)
  | comma (r : List Char) (toks : List Token) (h : CleanLexes r toks) :
      CleanLexes (',' :: r) (⟨.COMMA, .str ","⟩ :: toks)
  | plus (r : List Char) (toks : List Token) (h : CleanLexes r toks) :
      CleanLexes ('+' :: r) (⟨.PLUS, .str "+"⟩ :: toks)
  | minus (r : List Char) (toks : List Token) (h : CleanLexes r toks) :
      CleanLexes ('-' :: r) (⟨.MINUS, .str "-"⟩ :: toks)
  | mult (r : List Char) (toks : List Token) (h : CleanLexes r toks) :
      CleanLexes ('*' :: r) (⟨.MULTIPLY, .str "*"⟩ :: toks)
  | div (r : List Char) (toks : List Token) (h : CleanLexes r toks) :
      CleanLexes ('/' :: r) (⟨.DIVISION, .str "/"⟩ :: toks)
  | var (d : Char) (name' r : List Char) (toks : List Token)
      (hd : isAlphaUnd d = true) (hall : ∀ c ∈ name', isAlphaUnd c = true)
      (hnext : ∀ x, r.head? = some x → isWordChar x = false)
      (h : CleanLexes r toks) :
      CleanLexes ('$' :: d :: (name' ++ r))
        (⟨.VARIABLE, .str (String.mk (d :: name'))⟩ :: toks)
  | strLit (us : List StrUnit) (r : List Char) (toks : List Token)
      (hok : ∀ u ∈ us, u.ok = true) (h : CleanLexes r toks) :
      CleanLexes ('"' :: (encodeUnits us ++ '"' :: r))
        (⟨.STRING, .str (String.mk (decodeUnits us))⟩ :: toks)
  | intLit (d : Char) (ds' r : List Char) (toks : List Token)
      (hd : d.isDigit = true) (hall : ∀ c ∈ ds', c.isDigit = true)
      (hnext : ∀ x, r.head? = some x → x.isDigit = false)
      (h : CleanLexes r toks) :
      CleanLexes (d :: (ds' ++ r)) (⟨.INTEGER, .num (digitsToNat (d :: ds'))⟩ :: toks)
  | print (r : List Char) (toks : List Token) (h : CleanLexes r toks) :
      CleanLexes ('P' :: 'R' :: 'I' :: 'N' :: 'T' :: r) (⟨.PRINT, .str "PRINT"⟩ :: toks)

theorem cleanLexes_both (r : List Char) (toks : List Token) (h : CleanLexes r toks) :
    lexHandGo r = (toks, []) ∧ lexTableGo r = some toks := by
  induction h with
  | nil => exact ⟨by rw [lexHandGo.eq_def], by rw [lexTableGo.eq_def]⟩
  | eol c r toks hc h ih =>
    refine ⟨?_, ?_⟩
    · rw [handStep_eol c r hc, ih.1]
    · rw [tableStep_eol c r hc.symm, ih.2]
      rfl
  | ws cs r toks h0 hall hnext h ih =>
    refine ⟨?_, ?_⟩
    · rw [handStep_wsRun cs r hall, ih.1]
    · rw [tableStep_ws cs r h0
        (fun c hc => by rcases hall c hc with rfl | rfl <;> decide)
        (fun c hc => by rcases hall c (List.mem_of_mem_head? hc) with rfl | rfl <;> decide)
        hnext, ih.2]
  | comment xs r toks hx h ih =>
    refine ⟨?_, ?_⟩
    · rw [handStep_comment xs r
        (fun c hc => by
          intro heq
          subst heq
          exact absurd (hx _ hc) (by decide)), ih.1]
    · rw [tableStep_comment xs r hx, ih.2]
  | unsup d name' r toks hd hall hnext h ih =>
    refine ⟨?_, ?_⟩
    · rw [handStep_unsup d name' r hd hall
        (fun x hx => by
          have := hnext x hx
          cases hw : isAlphaUnd x with
          | false => rfl
          | true => exact absurd (alphaUnd_isWordChar hw) (by simp [this])), ih.1]
    · have hstep := tableStep_unsup (d :: name') r (by simp)
        (fun c hc => by
          rcases List.mem_cons.mp hc with rfl | hc
          · exact alphaUnd_isWordChar hd
          · exact alphaUnd_isWordChar (hall c hc))
        hnext
      rw [show '@' :: d :: (name' ++ r) = '@' :: ((d :: name') ++ r) from rfl, hstep, ih.2]
      rfl
  | equal r toks h ih =>
    refine ⟨?_, ?_⟩
    · rw [handStep_equal r, ih.1]
    · rw [tableStep_equal r, ih.2]
      rfl
  | comma r toks h ih =>
    refine ⟨?_, ?_⟩
    · rw [handStep_comma r, ih.1]
    · rw [tableStep_comma r, ih.2]
      rfl
  | plus r toks h ih =>
    refine ⟨?_, ?_⟩
    · rw [handStep_plus r, ih.1]
    · rw [tableStep_plus r, ih.2]
      rfl
  | minus r toks h ih =>
    refine ⟨?_, ?_⟩
    · rw [handStep_minus r, ih.1]
    · rw [tableStep_minus r, ih.2]
      rfl
  | mult r toks h ih =>
    refine ⟨?_, ?_⟩
    · rw [handStep_mult r, ih.1]
    · rw [tableStep_mult r, ih.2]
      rfl
  | div r toks h ih =>
    refine ⟨?_, ?_⟩
    · rw [handStep_div r, ih.1]
    · rw [tableStep_div r, ih.2]
      rfl
  | var d name' r toks hd hall hnext h ih =>
    refine ⟨?_, ?_⟩
    · rw [handStep_var d name' r hd hall
        (fun x hx => by
          have := hnext x hx
          cases hw : isAlphaUnd x with
          | false => rfl
          | true => exact absurd (alphaUnd_isWordChar hw) (by simp [this])), ih.1]
    · have hstep := tableStep_var (d :: name') r (by simp)
        (fun c hc => by
          rcases List.mem_cons.mp hc with rfl | hc
          · exact alphaUnd_isWordChar hd
          · exact alphaUnd_isWordChar (hall c hc))
        hnext
      rw [show '$' :: d :: (name' ++ r) = '$' :: ((d :: name') ++ r) from rfl, hstep, ih.2]
      rfl
  | strLit us r toks hok h ih =>
    refine ⟨?_, ?_⟩
    · rw [handStep_str us hok r, ih.1]
    · rw [tableStep_str us hok r, ih.2]
      rfl
  | intLit d ds' r toks hd hall hnext h ih =>
    refine ⟨?_, ?_⟩
    · rw [handStep_int d ds' r hd hall hnext, ih.1]
    · have hstep := tableStep_int (d :: ds') r (by simp)
        (fun c hc => by
          rcases List.mem_cons.mp hc with rfl | hc
          · exact hd
          · exact hall c hc)
        hnext
      rw [show d :: (ds' ++ r) = (d :: ds') ++ r from rfl, hstep, ih.2]
      rfl
  | print r toks h ih =>
    refine ⟨?_, ?_⟩
    · rw [handStep_print r, ih.1]
    · rw [tableStep_print r, ih.2]
      rfl

/-! ## Composition across a clean boundary

`lex` only ever inspects the input from the cursor onwards, so a prefix
whose lexemes never look past a boundary contributes the same tokens in
front of any continuation.  These predicates state that for a concrete
prefix, and are the hypothesis under which removing a comment line
leaves the token sequence unchanged. -/

/-- The table lexer turns `A` into the tokens `toks` in front of any
continuation. -/
def TableComposes (A : List Char) (toks : List Token) : Prop :=
  ∀ r, lexTableGo (A ++ r) = (lexTableGo r).map (fun ts => toks ++ ts)

/-- The hand-written lexer turns `A` into the tokens `toks`, without
errors, in front of any continuation. -/
def HandComposes (A : List Char) (toks : List Token) : Prop :=
  ∀ r, lexHandGo (A ++ r) = (toks ++ (lexHandGo r).1, (lexHandGo r).2)

/-- A concrete composing prefix for the table lexer: one full `PRINT`
statement ending in a newline. -/
theorem tableComposes_print_one :
    TableComposes ("PRINT 1\n".toList)
      [⟨.PRINT, .str "PRINT"⟩, ⟨.INTEGER, .num 1⟩, ⟨.EOL, .str "\n"⟩] := by
  intro r
  show lexTableGo ('P' :: 'R' :: 'I' :: 'N' :: 'T' :: ' ' :: '1' :: '\n' :: r) = _
  rw [tableStep_print]
  rw [show (' ' :: '1' :: '\n' :: r) = [' '] ++ ('1' :: '\n' :: r) from rfl,
    tableStep_ws [' '] _ (by simp) (by intro c hc; simp at hc; subst hc; decide)
      (by intro c hc; simp at hc; cases hc; decide)
      (by intro d hd; simp at hd; subst hd; decide)]
  rw [show ('1' :: '\n' :: r) = ['1'] ++ ('\n' :: r) from rfl,
    tableStep_int ['1'] _ (by simp) (by intro c hc; simp at hc; subst hc; decide)
      (by intro d hd; simp at hd; subst hd; decide)]
  rw [tableStep_eol '\n' r (Or.inl rfl)]
  cases lexTableGo r <;> simp [digitsToNat] <;> decide

/-- A concrete composing prefix for the hand-written lexer: the same
`PRINT` statement. -/
theorem handComposes_print_one :
    HandComposes ("PRINT 1\n".toList)
      [⟨.PRINT, .str "PRINT"⟩, ⟨.INTEGER, .num 1⟩, ⟨.EOL, .str "\n"⟩] := by
  intro r
  show lexHandGo ('P' :: 'R' :: 'I' :: 'N' :: 'T' :: ' ' :: '1' :: '\n' :: r) = _
  rw [handStep_print]
  rw [handStep_ws ' ' _ (Or.inl rfl)]
  rw [show ('1' :: '\n' :: r) = '1' :: ([] ++ ('\n' :: r)) from rfl,
    handStep_int '1' [] _ (by decide) (by intro c hc; simp at hc)
      (by intro d hd; simp at hd; subst hd; decide)]
  rw [handStep_eol '\n' r (Or.inr rfl)]
  simp [digitsToNat]
  decide

/-! ## The claims -/

/-- C1: `2 + 3 * 4 - 1` lexes to the seven arithmetic tokens, parses to
the tree `(2 + (3 * 4)) - 1` — multiplication binds tighter than
addition/subtraction and equal precedence associates left, with all
seven tokens consumed and no error — and that tree evaluates to 13. -/
theorem c1_precedence_and_eval :
    lexTable "2 + 3 * 4 - 1" =
      some [⟨.INTEGER, .num 2⟩, ⟨.PLUS, .str "+"⟩, ⟨.INTEGER, .num 3⟩,
        ⟨.MULTIPLY, .str "*"⟩, ⟨.INTEGER, .num 4⟩, ⟨.MINUS, .str "-"⟩,
        ⟨.INTEGER, .num 1⟩] ∧
    parseExpression 0 [⟨.INTEGER, .num 2⟩, ⟨.PLUS, .str "+"⟩, ⟨.INTEGER, .num 3⟩,
        ⟨.MULTIPLY, .str "*"⟩, ⟨.INTEGER, .num 4⟩, ⟨.MINUS, .str "-"⟩,
        ⟨.INTEGER, .num 1⟩] =
      some (some (.binary (.binary (.lit (.num 2)) (.str "+")
          (.binary (.lit (.num 3)) (.str "*") (.lit (.num 4)))) (.str "-") (.lit (.num 1))),
        7, []) ∧
    evaluateExpression []
      (.binary (.binary (.lit (.num 2)) (.str "+")
        (.binary (.lit (.num 3)) (.str "*") (.lit (.num 4)))) (.str "-") (.lit (.num 1))) =
      (.num 13, []) := by
  refine ⟨?_, ?_, ?_⟩
  · show lexTableGo ['2', ' ', '+', ' ', '3', ' ', '*', ' ', '4', ' ', '-', ' ', '1'] = _
    simp [lexTableGo.eq_def, findMatch, lexerRules, matchEol, matchWs, matchComment,
      matchUnsupported, matchSingle, matchVariable, matchStr, matchInt, matchPrintKw,
      jsWhitespace, digitsToNat, strScan]
    all_goals decide
  · simp [parseExpression, parseBinaryExpression, pbeLoop, parseAtom, peekNext,
      getOperatorPrecedence, JsVal.truthy]
  · simp [evaluateExpression]
    norm_num

/-- C2 (amended): for `[VARIABLE name, EQUAL, literal]` tokens the parser
always emits `AssignmentStatement(name, Literal(v))`, but the interpreter
updates the store only when the literal's value is truthy; a falsy
literal (`0` or `""`) leaves the store unchanged and logs
`error evaluating expression` instead (`if (result)` in
`Interpreter.interpret`). -/
theorem c2_literal_assignment (name v : JsVal) (tt : TokenType)
    (htt : tt = .STRING ∨ tt = .INTEGER) :
    parse [⟨.VARIABLE, name⟩, ⟨.EQUAL, .str "="⟩, ⟨tt, v⟩] =
      .done [.assignment name (.lit v)] [] ∧
    (v.truthy = true →
      interpret [.assignment name (.lit v)] [] = ([(name, v)], [], [])) ∧
    (v.truthy = false →
      interpret [.assignment name (.lit v)] [] =
        ([], [], ["Interpreter: error evaluating expression"])) := by
  refine ⟨?_, ?_, ?_⟩
  · rcases htt with rfl | rfl <;>
      simp [parse, parseExpression, parseBinaryExpression, pbeLoop, parseAtom, peekNext,
        getOperatorPrecedence]
  · intro hv
    simp [interpret, evaluateExpression, storeSet, hv]
  · intro hv
    simp [interpret, evaluateExpression, storeSet, hv]

/-- C2 witness: the instance `$a = 5`. -/
theorem c2_literal_assignment_witness :
    ((.INTEGER : TokenType) = .STRING ∨ (.INTEGER : TokenType) = .INTEGER) ∧
    (parse [⟨.VARIABLE, .str "a"⟩, ⟨.EQUAL, .str "="⟩, ⟨.INTEGER, .num 5⟩] =
        .done [.assignment (.str "a") (.lit (.num 5))] [] ∧
      ((JsVal.num 5).truthy = true →
        interpret [.assignment (.str "a") (.lit (.num 5))] [] =
          ([(.str "a", .num 5)], [], [])) ∧
      ((JsVal.num 5).truthy = false →
        interpret [.assignment (.str "a") (.lit (.num 5))] [] =
          ([], [], ["Interpreter: error evaluating expression"]))) :=
  ⟨Or.inr rfl, c2_literal_assignment (.str "a") (.num 5) .INTEGER (Or.inr rfl)⟩

/-- C2 counterexample: `$a = 0` parses to the claimed assignment, but
after interpretation the store is empty — it does not map `a` to `0` —
and `error evaluating expression` is logged. -/
theorem c2_zero_assignment_counterexample :
    lexTable "$a = 0" =
      some [⟨.VARIABLE, .str "a"⟩, ⟨.EQUAL, .str "="⟩, ⟨.INTEGER, .num 0⟩] ∧
    parse [⟨.VARIABLE, .str "a"⟩, ⟨.EQUAL, .str "="⟩, ⟨.INTEGER, .num 0⟩] =
      .done [.assignment (.str "a") (.lit (.num 0))] [] ∧
    interpret [.assignment (.str "a") (.lit (.num 0))] [] =
      ([], [], ["Interpreter: error evaluating expression"]) := by
  refine ⟨?_, ?_, ?_⟩
  · show lexTableGo ['$', 'a', ' ', '=', ' ', '0'] = _
    simp [lexTableGo.eq_def, findMatch, lexerRules, matchEol, matchWs, matchComment,
      matchUnsupported, matchSingle, matchVariable, matchStr, matchInt, matchPrintKw,
      jsWhitespace, digitsToNat, strScan, isWordChar]
    all_goals decide
  · simp [parse, parseExpression, parseBinaryExpression, pbeLoop, parseAtom, peekNext,
      getOperatorPrecedence]
  · simp [interpret, evaluateExpression, storeSet, JsVal.truthy]

/-- C3: `PRINT $a` with no prior assignment does not abort: the
undefined-variable error is only logged (`ErrorMessage.error` has its
`throw` commented out), `variables.get` returns `undefined`, the
`undefined` is filtered out of the print line, and the program still
prints one (empty) line — rather than raising a fatal error and
producing no output. -/
theorem c3_print_undefined_continues :
    lexTable "PRINT $a" = some [⟨.PRINT, .str "PRINT"⟩, ⟨.VARIABLE, .str "a"⟩] ∧
    parse [⟨.PRINT, .str "PRINT"⟩, ⟨.VARIABLE, .str "a"⟩] =
      .done [.printStmt [.varRef (.str "a")]] [] ∧
    interpret [.printStmt [.varRef (.str "a")]] [] =
      ([], [""], ["Interpreter: variable 'a' is not defined"]) := by
  refine ⟨?_, ?_, ?_⟩
  · show lexTableGo ['P', 'R', 'I', 'N', 'T', ' ', '$', 'a'] = _
    simp [lexTableGo.eq_def, findMatch, lexerRules, matchEol, matchWs, matchComment,
      matchUnsupported, matchSingle, matchVariable, matchStr, matchInt, matchPrintKw,
      jsWhitespace, digitsToNat, strScan, isWordChar]
    all_goals decide
  · simp [parse, parseExpressionList, parseExpression, parseBinaryExpression, pbeLoop,
      parseAtom, peekNext, getOperatorPrecedence]
  · simp [interpret, evaluateExpression, storeGet, storeHas, jsToDisplay]
    all_goals decide

/-- C4: `parse` does not fail fast on a structurally invalid input: on
the single token `=` (which starts no statement) the statement loop logs
and re-inspects the same token forever — it diverges instead of
terminating. -/
theorem c4_parse_diverges_on_equal :
    lexTable "=" = some [⟨.EQUAL, .str "="⟩] ∧
    parse [⟨.EQUAL, .str "="⟩] = .diverge := by
  refine ⟨?_, ?_⟩
  · show lexTableGo ['='] = _
    simp [lexTableGo.eq_def, findMatch, lexerRules, matchEol, matchWs, matchComment,
      matchUnsupported, matchSingle, matchVariable, matchStr, matchInt, matchPrintKw,
      jsWhitespace, digitsToNat, strScan]
    all_goals decide
  · simp [parse]

/-- C5: an `@directive` does lex and parse to an Unsupported node
carrying its literal text, but executing it is not fatal — execution
continues to the next statement — and the logged message interpolates
the node's type tag (`statement.type`), not the directive's literal
text. -/
theorem c5_unsupported_statement_logged :
    lexTable "@directive" = some [⟨.UNSUPPORTED, .str "@directive"⟩] ∧
    parse [⟨.UNSUPPORTED, .str "@directive"⟩] =
      .done [.unsupported (.str "@directive")] [] ∧
    interpret [.unsupported (.str "@directive"), .printStmt [.lit (.str "ok")]] [] =
      ([], ["ok"], ["Interpreter: unsupported statement: Unsupported"]) ∧
    ("Interpreter: unsupported statement: Unsupported" ≠
      "Interpreter: unsupported statement: @directive") := by
  refine ⟨?_, ?_, ?_, ?_⟩
  · show lexTableGo ['@', 'd', 'i', 'r', 'e', 'c', 't', 'i', 'v', 'e'] = _
    simp [lexTableGo.eq_def, findMatch, lexerRules, matchEol, matchWs, matchComment,
      matchUnsupported, matchSingle, matchVariable, matchStr, matchInt, matchPrintKw,
      jsWhitespace, digitsToNat, strScan, isWordChar]
    all_goals decide
  · simp [parse]
  · simp [interpret, evaluateExpression, jsToDisplay, Stmt.typeTag]
    all_goals decide
  · decide

/-- C6: an unterminated string is not a fatal lexical error in the
hand-written lexer: `"abc` lexes to a STRING token holding the remaining
text `abc`, with an empty error log; the table-driven lexer's rules
never match the lone `"`, so its loop never advances (`none`,
the stuck loop) — neither reports an unterminated string. -/
theorem c6_unterminated_string_token :
    lexHand "\"abc" = ([⟨.STRING, .str "abc"⟩], []) ∧
    lexTable "\"abc" = none := by
  refine ⟨?_, ?_⟩
  · show lexHandGo ['"', 'a', 'b', 'c'] = _
    simp [lexHandGo.eq_def, readStringHand, jsWhitespace, isAlphaUnd, isWordChar,
      digitsToNat, unexpectedSym]
    all_goals decide
  · show lexTableGo ['"', 'a', 'b', 'c'] = _
    simp [lexTableGo.eq_def, findMatch, lexerRules, matchEol, matchWs, matchComment,
      matchUnsupported, matchSingle, matchVariable, matchStr, matchInt, matchPrintKw,
      jsWhitespace, digitsToNat, strScan]

/-- C7: a missing `=` after the variable name is not a syntax error: the
parser consumes the token in the `=` position without checking it
(`this.consume(); // Consume the '='`), so `$a 5 7` parses silently —
with an empty error log — to the assignment `a := 7`, the `5` having
been discarded as if it were the `=`. -/
theorem c7_missing_equal_accepted :
    lexTable "$a 5 7" = some [⟨.VARIABLE, .str "a"⟩, ⟨.INTEGER, .num 5⟩,
      ⟨.INTEGER, .num 7⟩] ∧
    parse [⟨.VARIABLE, .str "a"⟩, ⟨.INTEGER, .num 5⟩, ⟨.INTEGER, .num 7⟩] =
      .done [.assignment (.str "a") (.lit (.num 7))] [] := by
  refine ⟨?_, ?_⟩
  · show lexTableGo ['$', 'a', ' ', '5', ' ', '7'] = _
    simp [lexTableGo.eq_def, findMatch, lexerRules, matchEol, matchWs, matchComment,
      matchUnsupported, matchSingle, matchVariable, matchStr, matchInt, matchPrintKw,
      jsWhitespace, digitsToNat, strScan, isWordChar]
    all_goals decide
  · simp [parse, parseExpression, parseBinaryExpression, pbeLoop, parseAtom, peekNext,
      getOperatorPrecedence]

/-- C8 (amended): the hand-written lexer's `readString` does take the
character after a backslash literally, but the canonical table lexer's
string rule (`replace(/\\(["\\])/g, "$1")`) removes a backslash only
before `"` or `\` and keeps it before anything else; the two agree on
`"Hello\"World\""`, whose value is `Hello"World"` in both. -/
theorem c8_escape_decoding :
    (∀ x r, readStringHand ('\\' :: x :: r) =
      (String.singleton x ++ (readStringHand r).1, (readStringHand r).2)) ∧
    (∀ r, unescapeJs ('\\' :: '"' :: r) = '"' :: unescapeJs r) ∧
    (∀ r, unescapeJs ('\\' :: '\\' :: r) = '\\' :: unescapeJs r) ∧
    (∀ r, unescapeJs ('\\' :: 'a' :: r) = '\\' :: unescapeJs ('a' :: r)) ∧
    lexHand "\"Hello\\\"World\\\"\"" = ([⟨.STRING, .str "Hello\"World\""⟩], []) ∧
    lexTable "\"Hello\\\"World\\\"\"" = some [⟨.STRING, .str "Hello\"World\""⟩] := by
  refine ⟨?_, ?_, ?_, ?_, ?_, ?_⟩
  · intro x r
    simp [readStringHand]
  · intro r
    simp [unescapeJs]
  · intro r
    simp [unescapeJs]
  · intro r
    simp [unescapeJs]
  · show lexHandGo ('"' :: (encodeUnits [.plain 'H', .plain 'e', .plain 'l', .plain 'l',
        .plain 'o', .esc '"', .plain 'W', .plain 'o', .plain 'r', .plain 'l', .plain 'd',
        .esc '"'] ++ '"' :: [])) = _
    rw [handStep_str _ (by decide) []]
    simp [lexHandGo.eq_def, decodeUnits]
    all_goals decide
  · show lexTableGo ('"' :: (encodeUnits [.plain 'H', .plain 'e', .plain 'l', .plain 'l',
        .plain 'o', .esc '"', .plain 'W', .plain 'o', .plain 'r', .plain 'l', .plain 'd',
        .esc '"'] ++ '"' :: [])) = _
    rw [tableStep_str _ (by decide) []]
    simp [lexTableGo.eq_def, decodeUnits]
    all_goals decide

/-- C8 counterexample: for the literal `"\a"` the claimed decoding rule
fails in the canonical table lexer — its value keeps the backslash
(`\a`), while the hand-written lexer takes the `a` literally. -/
theorem c8_backslash_counterexample :
    lexHand "\"\\a\"" = ([⟨.STRING, .str "a"⟩], []) ∧
    lexTable "\"\\a\"" = some [⟨.STRING, .str "\\a"⟩] ∧
    (JsVal.str "\\a" ≠ JsVal.str "a") := by
  refine ⟨?_, ?_, ?_⟩
  · show lexHandGo ['"', '\\', 'a', '"'] = _
    rw [lexHandGo.eq_def]
    simp [readStringHand, lexHandGo.eq_def]
    all_goals decide
  · show lexTableGo ['"', '\\', 'a', '"'] = _
    have hfm : findMatch lexerRules ['"', '\\', 'a', '"'] =
        some ({ matcher := matchStr, tokenType := .STRING, skipToken := false,
                skipNextSymbol := false,
                action := some (fun v => match v with
                  | .str s => .str (String.mk (unescapeJs s.toList))
                  | v => v) },
              4, .str (String.mk ['\\', 'a'])) := by
      simp [findMatch, lexerRules, matchEol, matchWs, matchComment, matchUnsupported,
        matchSingle, matchVariable, matchStr, strScan, jsWhitespace, isLineTerm]
    rw [lexTableGo_step hfm]
    simp [lexTableGo.eq_def, unescapeJs]
    all_goals decide
  · decide

/-- C9: a `%` comment line contributes no tokens in either lexer: behind
any prefix whose lexemes never look past their own end, and in front of
any continuation, the token sequence (EOL tokens included) equals that
of the program with the whole comment line — `%`, the comment text and
its terminating newline — removed. -/
theorem c9_comment_line_removal (A B xs : List Char) (toksT toksH : List Token)
    (hx : ∀ c ∈ xs, isLineTerm c = false)
    (hT : TableComposes A toksT) (hH : HandComposes A toksH) :
    lexTableGo (A ++ ('%' :: (xs ++ '\n' :: B))) = lexTableGo (A ++ B) ∧
    lexHandGo (A ++ ('%' :: (xs ++ '\n' :: B))) = lexHandGo (A ++ B) := by
  constructor
  · rw [hT, hT, tableStep_comment xs B hx]
  · rw [hH, hH, handStep_comment xs B (fun c hc heq =>
      absurd (heq ▸ hx c hc) (by decide))]

/-- C9 witness: `PRINT 1`, a comment line, `PRINT 2`. -/
theorem c9_comment_line_removal_witness :
    (∀ c ∈ (" c".toList), isLineTerm c = false) ∧
    TableComposes ("PRINT 1\n".toList)
      [⟨.PRINT, .str "PRINT"⟩, ⟨.INTEGER, .num 1⟩, ⟨.EOL, .str "\n"⟩] ∧
    HandComposes ("PRINT 1\n".toList)
      [⟨.PRINT, .str "PRINT"⟩, ⟨.INTEGER, .num 1⟩, ⟨.EOL, .str "\n"⟩] ∧
    (lexTableGo ("PRINT 1\n".toList ++ ('%' :: (" c".toList ++ '\n' :: "PRINT 2\n".toList))) =
        lexTableGo ("PRINT 1\n".toList ++ "PRINT 2\n".toList) ∧
      lexHandGo ("PRINT 1\n".toList ++ ('%' :: (" c".toList ++ '\n' :: "PRINT 2\n".toList))) =
        lexHandGo ("PRINT 1\n".toList ++ "PRINT 2\n".toList)) :=
  ⟨by decide, tableComposes_print_one, handComposes_print_one,
    c9_comment_line_removal ("PRINT 1\n".toList) ("PRINT 2\n".toList) (" c".toList) _ _
      (by decide) tableComposes_print_one handComposes_print_one⟩

/-- C10 (amended): the two lexers agree — the hand-written lexer
returns exactly the table lexer's token sequence, with an empty error
log — on every input assembled from clean lexemes (`CleanLexes`):
separators, operators, identifiers, integers, string literals, `%`
comment lines, and whitespace runs of blanks and tabs that are not
followed by a further whitespace character. -/
theorem c10_lexers_agree_on_clean (r : List Char) (toks : List Token)
    (h : CleanLexes r toks) :
    lexHandGo r = (toks, []) ∧ lexTableGo r = some toks :=
  cleanLexes_both r toks h

/-- C10 witness: the input `1+2` followed by a newline. -/
theorem c10_lexers_agree_on_clean_witness :
    CleanLexes ("1+2\n".toList)
      [⟨.INTEGER, .num (digitsToNat ['1'])⟩, ⟨.PLUS, .str "+"⟩,
        ⟨.INTEGER, .num (digitsToNat ['2'])⟩, ⟨.EOL, .str (String.singleton '\n')⟩] ∧
    (lexHandGo ("1+2\n".toList) =
        ([⟨.INTEGER, .num (digitsToNat ['1'])⟩, ⟨.PLUS, .str "+"⟩,
          ⟨.INTEGER, .num (digitsToNat ['2'])⟩, ⟨.EOL, .str (String.singleton '\n')⟩], []) ∧
      lexTableGo ("1+2\n".toList) =
        some [⟨.INTEGER, .num (digitsToNat ['1'])⟩, ⟨.PLUS, .str "+"⟩,
          ⟨.INTEGER, .num (digitsToNat ['2'])⟩, ⟨.EOL, .str (String.singleton '\n')⟩]) := by
  have hd : CleanLexes ("1+2\n".toList)
      [⟨.INTEGER, .num (digitsToNat ['1'])⟩, ⟨.PLUS, .str "+"⟩,
        ⟨.INTEGER, .num (digitsToNat ['2'])⟩, ⟨.EOL, .str (String.singleton '\n')⟩] := by
    show CleanLexes ('1' :: ([] ++ ('+' :: '2' :: ([] ++ ['\n'])))) _
    exact CleanLexes.intLit '1' [] _ _ (by decide) (by simp)
      (by intro x hx; simp at hx; subst hx; decide)
      (CleanLexes.plus _ _
        (CleanLexes.intLit '2' [] _ _ (by decide) (by simp)
          (by intro x hx; simp at hx; subst hx; decide)
          (CleanLexes.eol '\n' [] [] (Or.inr rfl) CleanLexes.nil)))
  exact ⟨hd, c10_lexers_agree_on_clean _ _ hd⟩

/-- C10 counterexample: on `1 \n2` both lexers succeed, but the table
lexer's `\s+` whitespace rule swallows the newline together with the
blank before it, while the hand-written lexer emits an EOL token for
that newline: the token sequences differ. -/
theorem c10_space_newline_counterexample :
    lexHand "1 \n2" = ([⟨.INTEGER, .num 1⟩, ⟨.EOL, .str "\n"⟩, ⟨.INTEGER, .num 2⟩], []) ∧
    lexTable "1 \n2" = some [⟨.INTEGER, .num 1⟩, ⟨.INTEGER, .num 2⟩] ∧
    ([⟨.INTEGER, .num 1⟩, ⟨.EOL, .str "\n"⟩, ⟨.INTEGER, .num 2⟩] ≠
      ([⟨.INTEGER, .num 1⟩, ⟨.INTEGER, .num 2⟩] : List Token)) := by
  refine ⟨?_, ?_, ?_⟩
  · show lexHandGo ['1', ' ', '\n', '2'] = _
    simp [lexHandGo.eq_def, readStringHand, jsWhitespace, isAlphaUnd, isWordChar,
      digitsToNat, unexpectedSym]
    all_goals decide
  · show lexTableGo ['1', ' ', '\n', '2'] = _
    simp [lexTableGo.eq_def, findMatch, lexerRules, matchEol, matchWs, matchComment,
      matchUnsupported, matchSingle, matchVariable, matchStr, matchInt, matchPrintKw,
      jsWhitespace, digitsToNat, strScan]
    all_goals decide
  · decide

end ToyParser
